import Mathlib

/-!
Shallow embedding of `paddle/fluid/framework/details/multi_devices_helper.cc`.

C++ handle pointers (`OpHandleBase *`, `VarHandleBase *`) are modelled as
numeric node ids; a graph's node set is a pair of lists of op handles and
var handles, and pointer dereference is resolution of an id inside the
graph's var list.  `kUndefinedDevIdx` (`-1UL`) is modelled as `none` of an
`Option Nat` device index.  The graph attribute side-tables (`kGraphVars`,
`kGraphDepVars`, `kProgramDescs`, `kFusedVars`) are `Option`-valued fields:
`none` means the attribute is absent / erased.  `ir::Graph::Erase` sets the
field to `none`; map/set payloads are association lists.
-/

namespace MultiDevicesHelper

/-- Kind of an `OpHandleBase`: the `dynamic_cast` chain in `GetScopeIdxFromOp`
distinguishes `ComputationOpHandle` (with the wrapped `OpDesc`'s type string,
scope index and boolean attributes), `EagerDeletionOpHandle`,
`ShareTensorBufferOpHandle`, and every other subclass. -/
inductive OpKind where
  | compute (opType : String) (scopeIdx : Nat) (attrs : List (String × Bool))
  | eagerDeletion (scopeIdx : Nat)
  | shareTensorBuffer (scopeIdx : Nat)
  | other
  deriving DecidableEq, Repr

/-- An op handle: node id, kind, and the ids of the var handles in its
`Inputs()` and `Outputs()` lists. -/
structure OpHandle where
  id : Nat
  kind : OpKind
  inputs : List Nat
  outputs : List Nat
  deriving DecidableEq, Repr

/-- Kind of a `VarHandleBase`: a `VarHandle` (carrying `scope_idx()`), or a
`DummyVarHandle` (the `dynamic_cast<VarHandle *>` in `GetUniqueDeviceIdOfOp`
returns null exactly for dummies). -/
inductive VarKind where
  | var (scopeIdx : Nat)
  | dummy
  deriving DecidableEq, Repr

/-- A var handle: node id, `Name()`, kind, `GeneratedOp()` (id of the
generating op, if any) and `PendingOps()` (ids of consuming ops). -/
structure VarHandle where
  id : Nat
  name : String
  kind : VarKind
  generatedOp : Option Nat
  pendingOps : List Nat
  deriving DecidableEq, Repr

/-- A graph: its op-handle nodes, var-handle nodes, the attribute
side-tables, and the originating `ProgramDesc` (a list of blocks, each a
list of operator type strings). `graphVars` models `kGraphVars`
(`vector<map<string, payload>>`, payload opaque as `Nat`); `graphDepVars`
models `kGraphDepVars` (a set of dummy var handle ids); `programDescs` and
`fusedVars` are opaque optional attributes. -/
structure Graph where
  ops : List OpHandle
  vars : List VarHandle
  graphVars : Option (List (List (String × Nat)))
  graphDepVars : Option (List Nat)
  programDescs : Option Nat
  fusedVars : Option Nat
  originProgram : List (List String)
  deriving DecidableEq, Repr

/-- The fixed communication-operator set `kMultiDeviceOps`. -/
def kMultiDeviceOps : List String :=
  ["sync_batch_norm", "sync_batch_norm_grad", "allreduce",
   "c_allreduce_sum", "c_allreduce_prod", "c_allreduce_min",
   "c_allreduce_max", "c_allgather", "c_reducescatter", "c_broadcast",
   "c_comm_init", "c_comm_init_all", "c_gen_nccl_id", "c_sync_comm_stream",
   "send", "recv", "send_barrier", "fetch_barrier"]

/-- `GetScopeIdxFromOp`: communication compute ops and unrecognized op-handle
kinds get `kUndefinedDevIdx` (here `none`); other compute ops and the two
auxiliary kinds return their recorded scope index. -/
def GetScopeIdxFromOp (op : OpHandle) : Option Nat :=
  match op.kind with
  | .compute ty s _ => if ty ∈ kMultiDeviceOps then none else some s
  | .eagerDeletion s => some s
  | .shareTensorBuffer s => some s
  | .other => none

/-- `ContainMultiDeviceOp`: scans the program's blocks from `beginBlockIdx`
onward for an op whose type is in `kMultiDeviceOps`. -/
def ContainMultiDeviceOp (program : List (List String)) (beginBlockIdx : Nat) : Bool :=
  (program.drop beginBlockIdx).any fun block =>
    block.any fun ty => decide (ty ∈ kMultiDeviceOps)

/-- First var handle with the given id, modelling dereference of a
`VarHandleBase *` against the graph's var nodes. -/
def findVar : List VarHandle → Nat → Option VarHandle
  | [], _ => none
  | v :: rest, i => if v.id = i then some v else findVar rest i

/-- `GetUniqueDeviceIdOfOp`: the op's own scope index, downgraded to
undefined when any directly-connected non-dummy var handle records a
different scope index. -/
def GetUniqueDeviceIdOfOp (vars : List VarHandle) (op : OpHandle) : Option Nat :=
  match GetScopeIdxFromOp op with
  | none => none
  | some devIdx =>
    let inOuts := (op.inputs ++ op.outputs).filterMap (findVar vars)
    if inOuts.all fun v =>
        match v.kind with
        | .dummy => true
        | .var s => devIdx == s
    then some devIdx else none

/-- First binding of an op id in the classification map `op_to_dev_idx`. -/
def lookupDev : List (Nat × Nat) → Nat → Option Nat
  | [], _ => none
  | p :: rest, i => if p.1 = i then some p.2 else lookupDev rest i

/-- The first loop of `TrySeparateToMultipleSingleDeviceGraphs`: classify
every op via `GetUniqueDeviceIdOfOp`; `none` when any op is undetermined
(the C++ early `return {}`), otherwise the map `op_to_dev_idx` together
with `place_num`, the running maximum of `dev_idx + 1`. -/
def classifyOps (vars : List VarHandle) : List OpHandle → Option (List (Nat × Nat) × Nat)
  | [] => some ([], 0)
  | op :: rest =>
    match GetUniqueDeviceIdOfOp vars op with
    | none => none
    | some d =>
      match classifyOps vars rest with
      | none => none
      | some (m, pn) => some ((op.id, d) :: m, Nat.max (d + 1) pn)

/-- The second loop of `TrySeparateToMultipleSingleDeviceGraphs`: for every
op, every input's generating op and every output's pending op must be in
`op_to_dev_idx` with the same device index as the op itself. -/
def crossDeviceOk (g : Graph) (m : List (Nat × Nat)) : Bool :=
  g.ops.all fun op =>
    match lookupDev m op.id with
    | none => true
    | some devIdx =>
      ((op.inputs.filterMap (findVar g.vars)).all fun inVar =>
        match inVar.generatedOp with
        | none => true
        | some genId =>
          match lookupDev m genId with
          | none => false
          | some d => d == devIdx)
      &&
      ((op.outputs.filterMap (findVar g.vars)).all fun outVar =>
        outVar.pendingOps.all fun pid =>
          match lookupDev m pid with
          | none => false
          | some d => d == devIdx)

/-- First binding of a name in a `kGraphVars` per-device map. -/
def lookupName : List (String × Nat) → String → Option Nat
  | [], _ => none
  | p :: rest, k => if p.1 = k then some p.2 else lookupName rest k

/-- `unordered_map::emplace`: insert only when the key is absent. -/
def emplaceMap (mp : List (String × Nat)) (k : String) (v : Nat) : List (String × Nat) :=
  match lookupName mp k with
  | some _ => mp
  | none => mp ++ [(k, v)]

/-- `unordered_set::emplace`: insert only when the element is absent. -/
def emplaceSet (s : List Nat) (x : Nat) : List Nat :=
  if x ∈ s then s else s ++ [x]

/-- Remove the first var handle with the given id (`ir::Graph::RemoveNode`). -/
def removeFirstVar : List VarHandle → Nat → List VarHandle
  | [], _ => []
  | v :: rest, i => if v.id = i then rest else v :: removeFirstVar rest i

/-- Remove the first op handle with the given id (`ir::Graph::RemoveNode`). -/
def removeFirstOp : List OpHandle → Nat → List OpHandle
  | [], _ => []
  | o :: rest, i => if o.id = i then rest else o :: removeFirstOp rest i

/-- Apply `f` to the element at position `i` (`graphs[dev_idx]`). -/
def modifyIdx {α : Type} (f : α → α) : Nat → List α → List α
  | _, [] => []
  | 0, a :: rest => f a :: rest
  | n + 1, a :: rest => a :: modifyIdx f n rest

/-- Apply `f` to the per-device map at position 0 of a `kGraphVars` attribute
(`ret_graph->Get<GraphVars>(kGraphVars)[0]`). -/
def modifyFirstMap (gv : Option (List (List (String × Nat))))
    (f : List (String × Nat) → List (String × Nat)) :
    Option (List (List (String × Nat))) :=
  match gv with
  | some (mp :: rest) => some (f mp :: rest)
  | other => other

/-- A destination graph of the split: `new ir::Graph(ProgramDesc())` with
`kGraphVars` set to a one-device vector of empty maps and `kGraphDepVars`
set to an empty set. -/
def newEmptyGraph : Graph :=
  { ops := [], vars := [], graphVars := some [[]], graphDepVars := some [],
    programDescs := none, fusedVars := none, originProgram := [[]] }

/-- One iteration of the transfer lambda `handler` for one var handle id:
if the var's node is still in the source graph, move it to the destination
at index `dev` and record it in the destination's `kGraphDepVars` (dummy) or
`kGraphVars` (named var, copying the source entry `origin_vars.at(name)`;
the lookup default models the always-successful `at` on well-formed
graphs). -/
def moveVarStep (dev : Nat) (originVars : List (String × Nat))
    (st : Graph × List Graph) (vid : Nat) : Graph × List Graph :=
  match findVar st.1.vars vid with
  | none => st
  | some v =>
    ({ st.1 with vars := removeFirstVar st.1.vars vid },
     modifyIdx (fun d =>
       match v.kind with
       | .dummy =>
         { d with vars := d.vars ++ [v],
                  graphDepVars := d.graphDepVars.map fun s => emplaceSet s v.id }
       | .var _ =>
         { d with vars := d.vars ++ [v],
                  graphVars := modifyFirstMap d.graphVars fun mp =>
                    emplaceMap mp v.name ((lookupName originVars v.name).getD 0) })
       dev st.2)

/-- The body of the transfer loop for one op handle: move the op's node to
the destination at its device index (`op_to_dev_idx.at(op)`), then run
`handler` over its inputs and over its outputs. -/
def transferOp (m : List (Nat × Nat)) (st : Graph × List Graph)
    (op : OpHandle) : Graph × List Graph :=
  let dev := (lookupDev m op.id).getD 0
  let originVars := ((st.1.graphVars.getD []).getD dev [])
  let src1 : Graph := { st.1 with ops := removeFirstOp st.1.ops op.id }
  let gs1 := modifyIdx (fun d => { d with ops := d.ops ++ [op] }) dev st.2
  let st2 := op.inputs.foldl (moveVarStep dev originVars) (src1, gs1)
  op.outputs.foldl (moveVarStep dev originVars) st2

/-- `CopyGraphAttrIfExists`: copy an optional attribute from the source when
it is present there (destinations are freshly built, so the attribute is
absent in them). -/
def copyAttrIfExists (srcAttr destAttr : Option Nat) : Option Nat :=
  match srcAttr with
  | some v => some v
  | none => destAttr

/-- Steps 6-9 of `TrySeparateToMultipleSingleDeviceGraphs`: build `placeNum`
fresh graphs, run the transfer loop over all ops, erase `kGraphVars` and
`kGraphDepVars` from the source, and copy `kProgramDescs` / `kFusedVars`
into every destination.  Returns the destination graphs and the final state
of the source graph. -/
def finishTransfer (g : Graph) (m : List (Nat × Nat)) (placeNum : Nat) :
    List Graph × Graph :=
  let st := g.ops.foldl (transferOp m) (g, List.replicate placeNum newEmptyGraph)
  let src : Graph := { st.1 with graphVars := none, graphDepVars := none }
  let gs := st.2.map fun d =>
    { d with programDescs := copyAttrIfExists src.programDescs d.programDescs,
             fusedVars := copyAttrIfExists src.fusedVars d.fusedVars }
  (gs, src)

/-- `TrySeparateToMultipleSingleDeviceGraphs`.  The result is
`some (returnedGraphs, finalInputGraph)`; `none` models the fatal
`PADDLE_ENFORCE_GE(place_num, 1)` internal-consistency failure (the only
non-returning path). -/
def trySeparate (g : Graph) : Option (List Graph × Graph) :=
  if ContainMultiDeviceOp g.originProgram 1 then some ([], g)
  else if g.ops.isEmpty then some ([], g)
  else
    match classifyOps g.vars g.ops with
    | none => some ([], g)
    | some (m, placeNum) =>
      if crossDeviceOk g m then
        if placeNum < 1 then none
        else if placeNum = 1 then some ([], g)
        else some (finishTransfer g m placeNum)
      else some ([], g)

/-- `HasDropLastReadOpImpl`: some compute op of type `read` carries the
boolean attribute `drop_last` equal to `dropLast`. -/
def HasDropLastReadOpImpl (g : Graph) (dropLast : Bool) : Bool :=
  g.ops.any fun op =>
    match op.kind with
    | .compute ty _ attrs =>
      ty == "read" && ((attrs.lookup "drop_last") == some dropLast)
    | _ => false

/-- `HasDropLastReadOp`. -/
def HasDropLastReadOp (g : Graph) : Bool := HasDropLastReadOpImpl g true

/-- `HasKeepLastReadOp`. -/
def HasKeepLastReadOp (g : Graph) : Bool := HasDropLastReadOpImpl g false

/-- The ids of a list of op handles. -/
def opsIds (l : List OpHandle) : List Nat := l.map (·.id)

/-- The ids of a list of var handles. -/
def varsIds (l : List VarHandle) : List Nat := l.map (·.id)

/-- The ids of a graph's nodes (op nodes then var nodes). -/
def nodeIds (g : Graph) : List Nat := opsIds g.ops ++ varsIds g.vars

/-- All node ids of a transfer state: the source graph's nodes followed by
the nodes of every destination graph. -/
def stateNodeIds (st : Graph × List Graph) : List Nat :=
  nodeIds st.1 ++ (st.2.map nodeIds).flatten

/-- Well-formed node set: all node ids are pairwise distinct (distinct C++
nodes are distinct pointers). -/
def wfGraph (g : Graph) : Prop := (nodeIds g).Nodup

instance (g : Graph) : Decidable (wfGraph g) := by
  unfold wfGraph; infer_instance

/-- Every var node is an input or output of at least one op node. -/
def allVarsIncident (g : Graph) : Bool :=
  g.vars.all fun v =>
    g.ops.any fun op => v.id ∈ op.inputs || v.id ∈ op.outputs

/-! Concrete graphs used to exercise the definitions. -/

/-- A graph that splits into two single-device graphs: one op on device 0
producing variable `x`, one op on device 1 producing variable `y`. -/
def exSplit : Graph :=
  { ops := [⟨0, .compute "op_a" 0 [], [], [10]⟩,
            ⟨1, .compute "op_b" 1 [], [], [11]⟩],
    vars := [⟨10, "x", .var 0, some 0, []⟩, ⟨11, "y", .var 1, some 1, []⟩],
    graphVars := some [[("x", 100)], [("y", 200)]],
    graphDepVars := some [],
    programDescs := none, fusedVars := none,
    originProgram := [["op_a", "op_b"]] }

/-- `exSplit` with an extra var node (id 9) attached to no operator. -/
def exSplitIso : Graph :=
  { exSplit with vars := ⟨9, "z", .var 0, none, []⟩ :: exSplit.vars }

/-- Final state of the source graph after splitting `exSplitIso`: the
isolated var node 9 stays behind. -/
def exSplitIsoSrc : Graph :=
  { ops := [], vars := [⟨9, "z", .var 0, none, []⟩], graphVars := none,
    graphDepVars := none, programDescs := none, fusedVars := none,
    originProgram := [["op_a", "op_b"]] }

/-- An operator recorded on device 2 whose one input variable records
device 5. -/
def exMismatch : Graph :=
  { ops := [⟨0, .compute "op_a" 2 [], [5], []⟩],
    vars := [⟨5, "w", .var 5, none, [0]⟩],
    graphVars := some [[], [], [("w", 1)]], graphDepVars := some [],
    programDescs := none, fusedVars := none, originProgram := [[]] }

/-- `exSplit` whose originating program has an `allreduce` in block 1. -/
def exVeto : Graph :=
  { exSplit with originProgram := [["op_a", "op_b"], ["allreduce"]] }

/-- A graph with no operator nodes. -/
def exNoOps : Graph :=
  { ops := [], vars := [⟨10, "x", .var 0, none, []⟩],
    graphVars := some [[("x", 100)]], graphDepVars := some [],
    programDescs := none, fusedVars := none, originProgram := [[]] }

/-- A graph whose two operators both resolve to device index 0. -/
def exAllZero : Graph :=
  { ops := [⟨0, .compute "op_a" 0 [], [], []⟩,
            ⟨1, .compute "op_b" 0 [], [], []⟩],
    vars := [], graphVars := some [[]], graphDepVars := some [],
    programDescs := none, fusedVars := none, originProgram := [[]] }

/-- A graph with a single `read` operator with `drop_last = true`. -/
def exRead : Graph :=
  { ops := [⟨0, .compute "read" 0 [("drop_last", true)], [], []⟩],
    vars := [], graphVars := none, graphDepVars := none,
    programDescs := none, fusedVars := none, originProgram := [[]] }

/-! Basic lemmas about the list helpers. -/

theorem findVar_some_mem : ∀ {l : List VarHandle} {i : Nat} {v : VarHandle},
    findVar l i = some v → v ∈ l ∧ v.id = i := by
  intro l
  induction l with
  | nil => intro i v h; simp [findVar] at h
  | cons w rest ih =>
    intro i v h
    by_cases hw : w.id = i
    · simp [findVar, hw] at h
      subst h
      exact ⟨List.mem_cons_self _ _, hw⟩
    · simp [findVar, hw] at h
      rcases ih h with ⟨hm, hi⟩
      exact ⟨List.mem_cons_of_mem _ hm, hi⟩

theorem findVar_none_iff : ∀ {l : List VarHandle} {i : Nat},
    findVar l i = none ↔ i ∉ varsIds l := by
  intro l
  induction l with
  | nil => intro i; simp [findVar, varsIds]
  | cons w rest ih =>
    intro i
    by_cases hw : w.id = i
    · simp [findVar, hw, varsIds]
    · simp [findVar, hw, varsIds, ih]
      intro _
      omega

theorem varsIds_perm_removeFirstVar : ∀ {l : List VarHandle} {i : Nat} {v : VarHandle},
    findVar l i = some v →
    List.Perm (varsIds l) (i :: varsIds (removeFirstVar l i)) := by
  intro l
  induction l with
  | nil => intro i v h; simp [findVar] at h
  | cons w rest ih =>
    intro i v h
    by_cases hw : w.id = i
    · simp [removeFirstVar, hw, varsIds]
    · simp only [findVar, hw, if_false, if_neg hw] at h
      have := ih h
      simp only [removeFirstVar, if_neg hw, varsIds, List.map_cons] at this ⊢
      exact (this.cons w.id).trans (List.Perm.swap _ _ _)

theorem removeFirstVar_sublist : ∀ (l : List VarHandle) (i : Nat),
    List.Sublist (removeFirstVar l i) l := by
  intro l i
  induction l with
  | nil => simp [removeFirstVar]
  | cons w rest ih =>
    by_cases hw : w.id = i
    · simp only [removeFirstVar, if_pos hw]
      exact List.sublist_cons_self _ _
    · simp only [removeFirstVar, if_neg hw]
      exact ih.cons₂ w

theorem varsIds_removeFirstVar_sublist (l : List VarHandle) (i : Nat) :
    List.Sublist (varsIds (removeFirstVar l i)) (varsIds l) :=
  (removeFirstVar_sublist l i).map _

theorem mem_varsIds_removeFirstVar : ∀ {l : List VarHandle} {i j : Nat},
    i ≠ j → i ∈ varsIds l → i ∈ varsIds (removeFirstVar l j) := by
  intro l
  induction l with
  | nil => intro i j _ h; simp [varsIds] at h
  | cons w rest ih =>
    intro i j hne hi
    simp only [varsIds, List.map_cons, List.mem_cons] at hi
    by_cases hw : w.id = j
    · simp only [removeFirstVar, if_pos hw]
      rcases hi with hi | hi
      · exact absurd (hi.trans hw) hne
      · exact hi
    · simp only [removeFirstVar, if_neg hw, varsIds, List.map_cons, List.mem_cons]
      rcases hi with hi | hi
      · exact Or.inl hi
      · exact Or.inr (ih hne hi)

theorem not_mem_varsIds_removeFirstVar : ∀ {l : List VarHandle} {i : Nat},
    (varsIds l).Nodup → i ∉ varsIds (removeFirstVar l i) := by
  intro l
  induction l with
  | nil => intro i _; simp [removeFirstVar, varsIds]
  | cons w rest ih =>
    intro i hnd
    simp only [varsIds, List.map_cons, List.nodup_cons] at hnd
    by_cases hw : w.id = i
    · simp only [removeFirstVar, if_pos hw]
      rw [← hw]
      exact hnd.1
    · simp only [removeFirstVar, if_neg hw, varsIds, List.map_cons, List.mem_cons]
      push_neg
      refine ⟨fun h => hw h.symm, ih hnd.2⟩

theorem opsIds_perm_removeFirstOp : ∀ {l : List OpHandle} {i : Nat},
    i ∈ opsIds l →
    List.Perm (opsIds l) (i :: opsIds (removeFirstOp l i)) := by
  intro l
  induction l with
  | nil => intro i h; simp [opsIds] at h
  | cons w rest ih =>
    intro i h
    by_cases hw : w.id = i
    · simp [removeFirstOp, hw, opsIds]
    · simp only [opsIds, List.map_cons, List.mem_cons] at h
      rcases h with h | h
      · exact absurd h.symm hw
      · have := ih h
        simp only [removeFirstOp, if_neg hw, opsIds, List.map_cons] at this ⊢
        exact (this.cons w.id).trans (List.Perm.swap _ _ _)

theorem removeFirstOp_sublist : ∀ (l : List OpHandle) (i : Nat),
    List.Sublist (removeFirstOp l i) l := by
  intro l i
  induction l with
  | nil => simp [removeFirstOp]
  | cons w rest ih =>
    by_cases hw : w.id = i
    · simp only [removeFirstOp, if_pos hw]
      exact List.sublist_cons_self _ _
    · simp only [removeFirstOp, if_neg hw]
      exact ih.cons₂ w

theorem opsIds_removeFirstOp_sublist (l : List OpHandle) (i : Nat) :
    List.Sublist (opsIds (removeFirstOp l i)) (opsIds l) :=
  (removeFirstOp_sublist l i).map _

theorem mem_opsIds_removeFirstOp : ∀ {l : List OpHandle} {i j : Nat},
    i ≠ j → i ∈ opsIds l → i ∈ opsIds (removeFirstOp l j) := by
  intro l
  induction l with
  | nil => intro i j _ h; simp [opsIds] at h
  | cons w rest ih =>
    intro i j hne hi
    simp only [opsIds, List.map_cons, List.mem_cons] at hi
    by_cases hw : w.id = j
    · simp only [removeFirstOp, if_pos hw]
      rcases hi with hi | hi
      · exact absurd (hi.trans hw) hne
      · exact hi
    · simp only [removeFirstOp, if_neg hw, opsIds, List.map_cons, List.mem_cons]
      rcases hi with hi | hi
      · exact Or.inl hi
      · exact Or.inr (ih hne hi)

theorem not_mem_opsIds_removeFirstOp : ∀ {l : List OpHandle} {i : Nat},
    (opsIds l).Nodup → i ∉ opsIds (removeFirstOp l i) := by
  intro l
  induction l with
  | nil => intro i _; simp [removeFirstOp, opsIds]
  | cons w rest ih =>
    intro i hnd
    simp only [opsIds, List.map_cons, List.nodup_cons] at hnd
    by_cases hw : w.id = i
    · simp only [removeFirstOp, if_pos hw]
      rw [← hw]
      exact hnd.1
    · simp only [removeFirstOp, if_neg hw, opsIds, List.map_cons, List.mem_cons]
      push_neg
      refine ⟨fun h => hw h.symm, ih hnd.2⟩

theorem modifyIdx_length {α : Type} (f : α → α) :
    ∀ (i : Nat) (l : List α), (modifyIdx f i l).length = l.length := by
  intro i l
  induction l generalizing i with
  | nil => cases i <;> simp [modifyIdx]
  | cons a rest ih =>
    cases i with
    | zero => simp [modifyIdx]
    | succ n => simp [modifyIdx, ih]

theorem getD_modifyIdx_ne {α : Type} (f : α → α) :
    ∀ {i j : Nat} (l : List α) (d : α), j ≠ i →
    (modifyIdx f i l).getD j d = l.getD j d := by
  intro i j l
  induction l generalizing i j with
  | nil => intro d _; cases i <;> simp [modifyIdx]
  | cons a rest ih =>
    intro d hne
    cases i with
    | zero =>
      cases j with
      | zero => exact absurd rfl hne
      | succ k => simp [modifyIdx]
    | succ n =>
      cases j with
      | zero => simp [modifyIdx]
      | succ k =>
        simp only [modifyIdx, List.getD_cons_succ]
        exact ih _ (fun h => hne (by rw [h]))

theorem getD_replicate_lt {α : Type} (x d : α) :
    ∀ {n i : Nat}, i < n → (List.replicate n x).getD i d = x := by
  intro n
  induction n with
  | zero => intro i h; omega
  | succ k ih =>
    intro i h
    cases i with
    | zero => simp [List.replicate]
    | succ j =>
      simp only [List.replicate, List.getD_cons_succ]
      exact ih (by omega)

theorem flatten_map_modifyIdx_perm (x : Nat) (f : Graph → Graph)
    (hf : ∀ d, List.Perm (nodeIds (f d)) (x :: nodeIds d)) :
    ∀ {i : Nat} {l : List Graph}, i < l.length →
    List.Perm (((modifyIdx f i l).map nodeIds).flatten)
      (x :: (l.map nodeIds).flatten) := by
  intro i l
  induction l generalizing i with
  | nil => intro h; simp at h
  | cons a rest ih =>
    intro h
    cases i with
    | zero =>
      simp only [modifyIdx, List.map_cons, List.flatten_cons]
      exact (hf a).append_right _
    | succ n =>
      simp only [modifyIdx, List.map_cons, List.flatten_cons]
      have hn : n < rest.length := by simpa using h
      refine ((ih hn).append_left (nodeIds a)).trans ?_
      exact List.perm_middle

/-! Lemmas about the classification map. -/

theorem classify_getUnique {vars : List VarHandle} :
    ∀ {ops : List OpHandle} {m : List (Nat × Nat)} {pn : Nat},
    classifyOps vars ops = some (m, pn) →
    ∀ op ∈ ops, ∃ d, GetUniqueDeviceIdOfOp vars op = some d ∧ d + 1 ≤ pn := by
  intro ops
  induction ops with
  | nil => intro m pn _ op hop; simp at hop
  | cons o rest ih =>
    intro m pn h op hop
    cases hu : GetUniqueDeviceIdOfOp vars o with
    | none => simp [classifyOps, hu] at h
    | some d =>
      cases hc : classifyOps vars rest with
      | none => simp [classifyOps, hu, hc] at h
      | some p =>
        obtain ⟨m', pn'⟩ := p
        simp only [classifyOps, hu, hc, Option.some.injEq, Prod.mk.injEq] at h
        obtain ⟨hm, hpn⟩ := h
        rcases List.mem_cons.mp hop with rfl | hop'
        · exact ⟨d, hu, hpn ▸ Nat.le_max_left _ _⟩
        · obtain ⟨d', hd', hle⟩ := ih hc op hop'
          exact ⟨d', hd', hpn ▸ le_trans hle (Nat.le_max_right _ _)⟩

theorem classify_lookup {vars : List VarHandle} :
    ∀ {ops : List OpHandle} {m : List (Nat × Nat)} {pn : Nat},
    (opsIds ops).Nodup →
    classifyOps vars ops = some (m, pn) →
    ∀ op ∈ ops, ∀ d, GetUniqueDeviceIdOfOp vars op = some d →
    lookupDev m op.id = some d := by
  intro ops
  induction ops with
  | nil => intro m pn _ _ op hop; simp at hop
  | cons o rest ih =>
    intro m pn hnd h op hop d hd
    cases hu : GetUniqueDeviceIdOfOp vars o with
    | none => simp [classifyOps, hu] at h
    | some d0 =>
      cases hc : classifyOps vars rest with
      | none => simp [classifyOps, hu, hc] at h
      | some p =>
        obtain ⟨m', pn'⟩ := p
        simp only [classifyOps, hu, hc, Option.some.injEq, Prod.mk.injEq] at h
        obtain ⟨hm, _⟩ := h
        simp only [opsIds, List.map_cons, List.nodup_cons] at hnd
        rcases List.mem_cons.mp hop with rfl | hop'
        · rw [hd] at hu
          cases hu
          rw [← hm]
          simp [lookupDev]
        · have hne : o.id ≠ op.id := by
            intro hcontra
            exact hnd.1 (hcontra ▸ List.mem_map_of_mem (·.id) hop')
          rw [← hm]
          simp only [lookupDev, if_neg hne]
          exact ih hnd.2 hc op hop' d hd

theorem classify_attained {vars : List VarHandle} :
    ∀ {ops : List OpHandle} {m : List (Nat × Nat)} {pn : Nat},
    ops ≠ [] →
    classifyOps vars ops = some (m, pn) →
    ∃ op ∈ ops, ∃ d, GetUniqueDeviceIdOfOp vars op = some d ∧ d + 1 = pn := by
  intro ops
  induction ops with
  | nil => intro m pn hne _; exact absurd rfl hne
  | cons o rest ih =>
    intro m pn _ h
    cases hu : GetUniqueDeviceIdOfOp vars o with
    | none => simp [classifyOps, hu] at h
    | some d =>
      cases hc : classifyOps vars rest with
      | none => simp [classifyOps, hu, hc] at h
      | some p =>
        obtain ⟨m', pn'⟩ := p
        simp only [classifyOps, hu, hc, Option.some.injEq, Prod.mk.injEq] at h
        obtain ⟨_, hpn⟩ := h
        rcases Nat.le_total pn' (d + 1) with hle | hle
        · refine ⟨o, List.mem_cons_self _ _, d, hu, ?_⟩
          rw [← hpn]
          exact (Nat.max_eq_left hle).symm
        · rcases List.eq_nil_or_concat rest with rfl | _
          · simp only [classifyOps, Option.some.injEq, Prod.mk.injEq] at hc
            omega
          · have hrest : rest ≠ [] := by
              rename_i hco
              obtain ⟨a, b, rfl⟩ := hco
              simp
            obtain ⟨op, hop, d', hd', hd1⟩ := ih hrest hc
            refine ⟨op, List.mem_cons_of_mem _ hop, d', hd', ?_⟩
            rw [← hpn, hd1]
            exact (Nat.max_eq_right hle).symm

theorem classify_pos {vars : List VarHandle} {ops : List OpHandle}
    {m : List (Nat × Nat)} {pn : Nat}
    (hne : ops ≠ []) (h : classifyOps vars ops = some (m, pn)) : 1 ≤ pn := by
  obtain ⟨_, _, d, _, hd⟩ := classify_attained hne h
  omega

theorem classify_none_of_undetermined {vars : List VarHandle} :
    ∀ {ops : List OpHandle} {op : OpHandle}, op ∈ ops →
    GetUniqueDeviceIdOfOp vars op = none →
    classifyOps vars ops = none := by
  intro ops
  induction ops with
  | nil => intro op hop; simp at hop
  | cons o rest ih =>
    intro op hop hu
    rcases List.mem_cons.mp hop with rfl | hop'
    · simp [classifyOps, hu]
    · cases hu0 : GetUniqueDeviceIdOfOp vars o with
      | none => simp [classifyOps, hu0]
      | some d => simp [classifyOps, hu0, ih hop' hu]

theorem classify_all_zero {vars : List VarHandle} :
    ∀ {ops : List OpHandle} {m : List (Nat × Nat)} {pn : Nat},
    (∀ op ∈ ops, GetUniqueDeviceIdOfOp vars op = some 0) →
    classifyOps vars ops = some (m, pn) → pn ≤ 1 := by
  intro ops
  induction ops with
  | nil => intro m pn _ h; simp [classifyOps] at h; omega
  | cons o rest ih =>
    intro m pn hall h
    have hu : GetUniqueDeviceIdOfOp vars o = some 0 := hall o (List.mem_cons_self _ _)
    cases hc : classifyOps vars rest with
    | none => simp [classifyOps, hu, hc] at h
    | some p =>
      obtain ⟨m', pn'⟩ := p
      simp only [classifyOps, hu, hc, Option.some.injEq, Prod.mk.injEq] at h
      obtain ⟨_, hpn⟩ := h
      have hr := ih (fun op hop => hall op (List.mem_cons_of_mem _ hop)) hc
      rw [← hpn]
      exact Nat.max_le.mpr ⟨by omega, hr⟩

/-! The cross-device dependency check as a proposition. -/

/-- The property verified by the second loop: every input's generating op
and every output's pending op that the classification map knows has the
same device index as the op itself. -/
def CrossDeviceProp (g : Graph) (m : List (Nat × Nat)) : Prop :=
  ∀ op ∈ g.ops, ∀ dv, lookupDev m op.id = some dv →
    (∀ v ∈ op.inputs.filterMap (findVar g.vars), ∀ gid, v.generatedOp = some gid →
      ∀ d2, lookupDev m gid = some d2 → d2 = dv) ∧
    (∀ v ∈ op.outputs.filterMap (findVar g.vars), ∀ pid ∈ v.pendingOps,
      ∀ d2, lookupDev m pid = some d2 → d2 = dv)

theorem crossDeviceOk_prop {g : Graph} {m : List (Nat × Nat)}
    (h : crossDeviceOk g m = true) : CrossDeviceProp g m := by
  intro op hop dv hdv
  have hop2 := List.all_eq_true.mp h op hop
  rw [hdv] at hop2
  simp only [Bool.and_eq_true] at hop2
  constructor
  · intro v hv gid hgid d2 hd2
    have h3 := List.all_eq_true.mp hop2.1 v hv
    simp only [hgid, hd2, beq_iff_eq] at h3
    exact h3
  · intro v hv pid hpid d2 hd2
    have h3 := List.all_eq_true.mp (List.all_eq_true.mp hop2.2 v hv) pid hpid
    simp only [hd2, beq_iff_eq] at h3
    exact h3

/-! Length preservation through the transfer. -/

theorem moveVarStep_gs_length (dev : Nat) (ov : List (String × Nat))
    (st : Graph × List Graph) (vid : Nat) :
    ((moveVarStep dev ov st vid).2).length = st.2.length := by
  cases h : findVar st.1.vars vid with
  | none => simp [moveVarStep, h]
  | some v => simp [moveVarStep, h, modifyIdx_length]

theorem foldl_moveVarStep_gs_length (dev : Nat) (ov : List (String × Nat)) :
    ∀ (vids : List Nat) (st : Graph × List Graph),
    ((vids.foldl (moveVarStep dev ov) st).2).length = st.2.length := by
  intro vids
  induction vids with
  | nil => intro st; rfl
  | cons v rest ih =>
    intro st
    rw [List.foldl_cons, ih, moveVarStep_gs_length]

theorem transferOp_gs_length (m : List (Nat × Nat)) (st : Graph × List Graph)
    (op : OpHandle) : ((transferOp m st op).2).length = st.2.length := by
  simp only [transferOp]
  rw [foldl_moveVarStep_gs_length, foldl_moveVarStep_gs_length, modifyIdx_length]

theorem foldl_transferOp_gs_length (m : List (Nat × Nat)) :
    ∀ (ops : List OpHandle) (st : Graph × List Graph),
    ((ops.foldl (transferOp m) st).2).length = st.2.length := by
  intro ops
  induction ops with
  | nil => intro st; rfl
  | cons o rest ih =>
    intro st
    rw [List.foldl_cons, ih, transferOp_gs_length]

theorem finishTransfer_length (g : Graph) (m : List (Nat × Nat)) (pn : Nat) :
    (finishTransfer g m pn).1.length = pn := by
  simp only [finishTransfer]
  rw [List.length_map, foldl_transferOp_gs_length, List.length_replicate]

/-! Branch analysis of `trySeparate`. -/

theorem trySeparate_veto {g : Graph}
    (h : ContainMultiDeviceOp g.originProgram 1 = true) :
    trySeparate g = some ([], g) := by
  simp [trySeparate, h]

theorem trySeparate_noOps {g : Graph} (h : g.ops = []) :
    trySeparate g = some ([], g) := by
  by_cases hveto : ContainMultiDeviceOp g.originProgram 1
  · simp [trySeparate, hveto]
  · simp [trySeparate, hveto, h]

theorem trySeparate_classifyNone {g : Graph}
    (h : classifyOps g.vars g.ops = none) :
    trySeparate g = some ([], g) := by
  by_cases hveto : ContainMultiDeviceOp g.originProgram 1
  · simp [trySeparate, hveto]
  · by_cases hemp : g.ops.isEmpty
    · simp [trySeparate, hveto, hemp]
    · simp [trySeparate, hveto, hemp, h]

theorem trySeparate_success {g : Graph} {l : List Graph} {g' : Graph}
    (h : trySeparate g = some (l, g')) (hne : l ≠ []) :
    g.ops ≠ [] ∧ ∃ m pn, classifyOps g.vars g.ops = some (m, pn) ∧
      crossDeviceOk g m = true ∧ 2 ≤ pn ∧ finishTransfer g m pn = (l, g') := by
  by_cases hveto : ContainMultiDeviceOp g.originProgram 1
  · rw [trySeparate_veto hveto] at h
    simp only [Option.some.injEq, Prod.mk.injEq] at h
    exact absurd h.1.symm hne
  · by_cases hemp : g.ops.isEmpty
    · rw [trySeparate_noOps (List.isEmpty_iff.mp hemp)] at h
      simp only [Option.some.injEq, Prod.mk.injEq] at h
      exact absurd h.1.symm hne
    · cases hc : classifyOps g.vars g.ops with
      | none =>
        rw [trySeparate_classifyNone hc] at h
        simp only [Option.some.injEq, Prod.mk.injEq] at h
        exact absurd h.1.symm hne
      | some p =>
        obtain ⟨m, pn⟩ := p
        refine ⟨mt List.isEmpty_iff.mpr hemp, m, pn, rfl, ?_⟩
        by_cases hcross : crossDeviceOk g m
        · have h2 : (if pn < 1 then none
              else if pn = 1 then some (([] : List Graph), g)
              else some (finishTransfer g m pn)) = some (l, g') := by
            simp only [trySeparate, hveto, hemp, hc, hcross, Bool.false_eq_true,
              if_false, if_true, ite_true, ite_false] at h
            exact h
          by_cases hlt : pn < 1
          · rw [if_pos hlt] at h2
            exact absurd h2 (by simp)
          · by_cases hone : pn = 1
            · rw [if_neg hlt, if_pos hone] at h2
              simp only [Option.some.injEq, Prod.mk.injEq] at h2
              exact absurd h2.1.symm hne
            · refine ⟨hcross, by omega, ?_⟩
              rw [if_neg hlt, if_neg hone] at h2
              simpa using h2
        · simp only [Bool.not_eq_true] at hcross
          simp only [trySeparate, hveto, hemp, hc, hcross, Bool.false_eq_true,
            if_false, ite_false, Option.some.injEq, Prod.mk.injEq] at h
          exact absurd h.1.symm hne

/-! Per-step lemmas about `moveVarStep`. -/

theorem varsIds_append (a b : List VarHandle) :
    varsIds (a ++ b) = varsIds a ++ varsIds b := List.map_append _ _ _

theorem append_singleton_perm (a b : List Nat) (x : Nat) :
    List.Perm (a ++ (b ++ [x])) (x :: (a ++ b)) := by
  rw [← List.append_assoc]
  exact List.perm_append_comm

theorem singleton_append_perm (a b : List Nat) (x : Nat) :
    List.Perm ((a ++ [x]) ++ b) (x :: (a ++ b)) := by
  rw [List.append_assoc]
  exact (List.Perm.refl _).trans List.perm_middle

/-- Moving one var node: removing it from the source's var list and
appending the handle to the destination at index `dev` permutes the state's
node ids. -/
theorem stateNodeIds_varmove_perm (st : Graph × List Graph) (vid : Nat)
    (v : VarHandle) (hvid : v.id = vid) (dev : Nat) (hdev : dev < st.2.length)
    (f : Graph → Graph)
    (hops : ∀ d, (f d).ops = d.ops) (hvars : ∀ d, (f d).vars = d.vars ++ [v])
    (hperm : List.Perm (varsIds st.1.vars)
      (vid :: varsIds (removeFirstVar st.1.vars vid))) :
    List.Perm
      (stateNodeIds ({ st.1 with vars := removeFirstVar st.1.vars vid },
        modifyIdx f dev st.2))
      (stateNodeIds st) := by
  have hstep : ∀ d, List.Perm (nodeIds (f d)) (vid :: nodeIds d) := by
    intro d
    have : nodeIds (f d) = opsIds d.ops ++ (varsIds d.vars ++ [vid]) := by
      rw [nodeIds, hops, hvars, varsIds_append]
      simp [varsIds, hvid]
    rw [this]
    exact append_singleton_perm _ _ _
  have hflat := flatten_map_modifyIdx_perm vid f hstep hdev
  show List.Perm
    ((opsIds st.1.ops ++ varsIds (removeFirstVar st.1.vars vid)) ++
      ((modifyIdx f dev st.2).map nodeIds).flatten)
    ((opsIds st.1.ops ++ varsIds st.1.vars) ++ (st.2.map nodeIds).flatten)
  have h1 : List.Perm
      ((opsIds st.1.ops ++ varsIds (removeFirstVar st.1.vars vid)) ++
        ((modifyIdx f dev st.2).map nodeIds).flatten)
      (vid :: ((opsIds st.1.ops ++ varsIds (removeFirstVar st.1.vars vid)) ++
        (st.2.map nodeIds).flatten)) :=
    (hflat.append_left _).trans List.perm_middle
  have h2 : List.Perm
      ((opsIds st.1.ops ++ varsIds st.1.vars) ++ (st.2.map nodeIds).flatten)
      (vid :: ((opsIds st.1.ops ++ varsIds (removeFirstVar st.1.vars vid)) ++
        (st.2.map nodeIds).flatten)) := by
    refine ((hperm.append_left (opsIds st.1.ops)).append_right _).trans ?_
    exact List.perm_middle.append_right _
  exact h1.trans h2.symm

theorem moveVarStep_src_fields (dev : Nat) (ov : List (String × Nat))
    (st : Graph × List Graph) (vid : Nat) :
    (moveVarStep dev ov st vid).1.ops = st.1.ops ∧
    (moveVarStep dev ov st vid).1.graphVars = st.1.graphVars ∧
    (moveVarStep dev ov st vid).1.graphDepVars = st.1.graphDepVars ∧
    (moveVarStep dev ov st vid).1.programDescs = st.1.programDescs ∧
    (moveVarStep dev ov st vid).1.fusedVars = st.1.fusedVars ∧
    (moveVarStep dev ov st vid).1.originProgram = st.1.originProgram := by
  cases hf : findVar st.1.vars vid with
  | none => simp [moveVarStep, hf]
  | some v => simp [moveVarStep, hf]

theorem moveVarStep_vars_sublist (dev : Nat) (ov : List (String × Nat))
    (st : Graph × List Graph) (vid : Nat) :
    List.Sublist (varsIds (moveVarStep dev ov st vid).1.vars)
      (varsIds st.1.vars) := by
  cases hf : findVar st.1.vars vid with
  | none => simp [moveVarStep, hf]
  | some v =>
    simp only [moveVarStep, hf]
    exact varsIds_removeFirstVar_sublist st.1.vars vid

theorem moveVarStep_removes (dev : Nat) (ov : List (String × Nat))
    (st : Graph × List Graph) (vid : Nat)
    (hnd : (varsIds st.1.vars).Nodup) :
    vid ∉ varsIds (moveVarStep dev ov st vid).1.vars := by
  cases hf : findVar st.1.vars vid with
  | none =>
    simp only [moveVarStep, hf]
    exact findVar_none_iff.mp hf
  | some v =>
    simp only [moveVarStep, hf]
    exact not_mem_varsIds_removeFirstVar hnd

theorem moveVarStep_keeps (dev : Nat) (ov : List (String × Nat))
    (st : Graph × List Graph) {i vid : Nat} (h : i ≠ vid)
    (hm : i ∈ varsIds st.1.vars) :
    i ∈ varsIds (moveVarStep dev ov st vid).1.vars := by
  cases hf : findVar st.1.vars vid with
  | none => simpa [moveVarStep, hf] using hm
  | some v =>
    simp only [moveVarStep, hf]
    exact mem_varsIds_removeFirstVar h hm

theorem moveVarStep_perm (dev : Nat) (ov : List (String × Nat))
    (st : Graph × List Graph) (vid : Nat) (hdev : dev < st.2.length) :
    List.Perm (stateNodeIds (moveVarStep dev ov st vid)) (stateNodeIds st) := by
  cases hf : findVar st.1.vars vid with
  | none => simp [moveVarStep, hf]
  | some v =>
    obtain ⟨hvm, hvid⟩ := findVar_some_mem hf
    have hperm := varsIds_perm_removeFirstVar hf
    cases hk : v.kind with
    | dummy =>
      simp only [moveVarStep, hf, hk]
      exact stateNodeIds_varmove_perm st vid v hvid dev hdev _
        (fun d => rfl) (fun d => rfl) hperm
    | var s =>
      simp only [moveVarStep, hf, hk]
      exact stateNodeIds_varmove_perm st vid v hvid dev hdev _
        (fun d => rfl) (fun d => rfl) hperm

theorem moveVarStep_getD_ne (dev : Nat) (ov : List (String × Nat))
    (st : Graph × List Graph) (vid : Nat) {d : Nat} (x : Graph)
    (h : d ≠ dev) :
    ((moveVarStep dev ov st vid).2).getD d x = st.2.getD d x := by
  cases hf : findVar st.1.vars vid with
  | none => simp [moveVarStep, hf]
  | some v =>
    simp only [moveVarStep, hf]
    exact getD_modifyIdx_ne _ _ _ h

/-- Invariants of folding `moveVarStep` over a list of var ids (one
`handler` call). -/
theorem moveVars_fold (dev : Nat) (ov : List (String × Nat)) :
    ∀ (vids : List Nat) (st : Graph × List Graph),
    dev < st.2.length →
    (varsIds st.1.vars).Nodup →
    ((vids.foldl (moveVarStep dev ov) st).1.ops = st.1.ops) ∧
    ((vids.foldl (moveVarStep dev ov) st).1.graphVars = st.1.graphVars) ∧
    ((vids.foldl (moveVarStep dev ov) st).1.graphDepVars = st.1.graphDepVars) ∧
    ((vids.foldl (moveVarStep dev ov) st).1.programDescs = st.1.programDescs) ∧
    ((vids.foldl (moveVarStep dev ov) st).1.fusedVars = st.1.fusedVars) ∧
    ((vids.foldl (moveVarStep dev ov) st).1.originProgram = st.1.originProgram) ∧
    List.Sublist (varsIds ((vids.foldl (moveVarStep dev ov) st).1.vars))
      (varsIds st.1.vars) ∧
    (∀ i ∈ vids, i ∉ varsIds ((vids.foldl (moveVarStep dev ov) st).1.vars)) ∧
    (∀ i, i ∉ vids → i ∈ varsIds st.1.vars →
      i ∈ varsIds ((vids.foldl (moveVarStep dev ov) st).1.vars)) ∧
    List.Perm (stateNodeIds (vids.foldl (moveVarStep dev ov) st))
      (stateNodeIds st) ∧
    (∀ d x, d ≠ dev →
      ((vids.foldl (moveVarStep dev ov) st).2).getD d x = st.2.getD d x) := by
  intro vids
  induction vids with
  | nil =>
    intro st _ _
    exact ⟨rfl, rfl, rfl, rfl, rfl, rfl, List.Sublist.refl _, by simp,
      fun i _ h => h, List.Perm.refl _, fun d x _ => rfl⟩
  | cons vid rest ih =>
    intro st hdev hnd
    have hdev1 : dev < (moveVarStep dev ov st vid).2.length := by
      rw [moveVarStep_gs_length]
      exact hdev
    have hnd1 : (varsIds (moveVarStep dev ov st vid).1.vars).Nodup :=
      hnd.sublist (moveVarStep_vars_sublist dev ov st vid)
    obtain ⟨i1, i2, i3, i4, i5, i6, isub, irem, ikeep, iperm, igetd⟩ :=
      ih (moveVarStep dev ov st vid) hdev1 hnd1
    obtain ⟨s1, s2, s3, s4, s5, s6⟩ := moveVarStep_src_fields dev ov st vid
    rw [List.foldl_cons]
    refine ⟨i1.trans s1, i2.trans s2, i3.trans s3, i4.trans s4, i5.trans s5,
      i6.trans s6, isub.trans (moveVarStep_vars_sublist dev ov st vid),
      ?_, ?_, iperm.trans (moveVarStep_perm dev ov st vid hdev), ?_⟩
    · intro i hi
      rcases List.mem_cons.mp hi with rfl | hi'
      · intro hmem
        exact moveVarStep_removes dev ov st i hnd (isub.mem hmem)
      · exact irem i hi'
    · intro i hi hmem
      have hne : i ≠ vid := fun h => hi (h ▸ List.mem_cons_self _ _)
      have hrest : i ∉ rest := fun h => hi (List.mem_cons_of_mem _ h)
      exact ikeep i hrest (moveVarStep_keeps dev ov st hne hmem)
    · intro d x hdne
      rw [igetd d x hdne, moveVarStep_getD_ne dev ov st vid x hdne]

/-- Moving one op node: removing it from the source's op list and appending
the handle to the destination at index `dev` permutes the state's node
ids. -/
theorem stateNodeIds_opmove_perm (st : Graph × List Graph) (op : OpHandle)
    (dev : Nat) (hdev : dev < st.2.length)
    (hopmem : op.id ∈ opsIds st.1.ops) :
    List.Perm
      (stateNodeIds ({ st.1 with ops := removeFirstOp st.1.ops op.id },
        modifyIdx (fun d => { d with ops := d.ops ++ [op] }) dev st.2))
      (stateNodeIds st) := by
  have hstep : ∀ d : Graph,
      List.Perm (nodeIds { d with ops := d.ops ++ [op] }) (op.id :: nodeIds d) := by
    intro d
    have heq : nodeIds { d with ops := d.ops ++ [op] }
        = (opsIds d.ops ++ [op.id]) ++ varsIds d.vars := by
      rw [nodeIds]
      simp [opsIds, List.map_append]
    rw [heq]
    exact singleton_append_perm _ _ _
  have hflat := flatten_map_modifyIdx_perm op.id _ hstep hdev
  have hperm := opsIds_perm_removeFirstOp hopmem
  show List.Perm
    ((opsIds (removeFirstOp st.1.ops op.id) ++ varsIds st.1.vars) ++
      ((modifyIdx (fun d => { d with ops := d.ops ++ [op] }) dev st.2).map
        nodeIds).flatten)
    ((opsIds st.1.ops ++ varsIds st.1.vars) ++ (st.2.map nodeIds).flatten)
  have h1 : List.Perm
      ((opsIds (removeFirstOp st.1.ops op.id) ++ varsIds st.1.vars) ++
        ((modifyIdx (fun d => { d with ops := d.ops ++ [op] }) dev st.2).map
          nodeIds).flatten)
      (op.id :: ((opsIds (removeFirstOp st.1.ops op.id) ++ varsIds st.1.vars) ++
        (st.2.map nodeIds).flatten)) :=
    (hflat.append_left _).trans List.perm_middle
  have h2 : List.Perm
      ((opsIds st.1.ops ++ varsIds st.1.vars) ++ (st.2.map nodeIds).flatten)
      (op.id :: ((opsIds (removeFirstOp st.1.ops op.id) ++ varsIds st.1.vars) ++
        (st.2.map nodeIds).flatten)) :=
    (hperm.append_right _).append_right _
  exact h1.trans h2.symm

/-- Invariants of one iteration of the transfer loop, stated over the
explicit body of `transferOp` with the device index and the origin var map
abstracted. -/
theorem transferCore_spec (dev : Nat) (ov : List (String × Nat))
    (st : Graph × List Graph) (op : OpHandle)
    (hdev : dev < st.2.length)
    (hnd : (stateNodeIds st).Nodup)
    (hopmem : op.id ∈ opsIds st.1.ops) :
    List.Perm
      (stateNodeIds (op.outputs.foldl (moveVarStep dev ov)
        (op.inputs.foldl (moveVarStep dev ov)
          ({ st.1 with ops := removeFirstOp st.1.ops op.id },
           modifyIdx (fun d => { d with ops := d.ops ++ [op] }) dev st.2))))
      (stateNodeIds st) ∧
    (op.outputs.foldl (moveVarStep dev ov)
        (op.inputs.foldl (moveVarStep dev ov)
          ({ st.1 with ops := removeFirstOp st.1.ops op.id },
           modifyIdx (fun d => { d with ops := d.ops ++ [op] }) dev st.2))).1.graphVars
      = st.1.graphVars ∧
    (op.outputs.foldl (moveVarStep dev ov)
        (op.inputs.foldl (moveVarStep dev ov)
          ({ st.1 with ops := removeFirstOp st.1.ops op.id },
           modifyIdx (fun d => { d with ops := d.ops ++ [op] }) dev st.2))).1.graphDepVars
      = st.1.graphDepVars ∧
    (op.outputs.foldl (moveVarStep dev ov)
        (op.inputs.foldl (moveVarStep dev ov)
          ({ st.1 with ops := removeFirstOp st.1.ops op.id },
           modifyIdx (fun d => { d with ops := d.ops ++ [op] }) dev st.2))).1.programDescs
      = st.1.programDescs ∧
    (op.outputs.foldl (moveVarStep dev ov)
        (op.inputs.foldl (moveVarStep dev ov)
          ({ st.1 with ops := removeFirstOp st.1.ops op.id },
           modifyIdx (fun d => { d with ops := d.ops ++ [op] }) dev st.2))).1.fusedVars
      = st.1.fusedVars ∧
    (op.outputs.foldl (moveVarStep dev ov)
        (op.inputs.foldl (moveVarStep dev ov)
          ({ st.1 with ops := removeFirstOp st.1.ops op.id },
           modifyIdx (fun d => { d with ops := d.ops ++ [op] }) dev st.2))).1.originProgram
      = st.1.originProgram ∧
    op.id ∉ opsIds (op.outputs.foldl (moveVarStep dev ov)
        (op.inputs.foldl (moveVarStep dev ov)
          ({ st.1 with ops := removeFirstOp st.1.ops op.id },
           modifyIdx (fun d => { d with ops := d.ops ++ [op] }) dev st.2))).1.ops ∧
    List.Sublist (opsIds (op.outputs.foldl (moveVarStep dev ov)
        (op.inputs.foldl (moveVarStep dev ov)
          ({ st.1 with ops := removeFirstOp st.1.ops op.id },
           modifyIdx (fun d => { d with ops := d.ops ++ [op] }) dev st.2))).1.ops)
      (opsIds st.1.ops) ∧
    (∀ i, i ≠ op.id → i ∈ opsIds st.1.ops →
      i ∈ opsIds (op.outputs.foldl (moveVarStep dev ov)
        (op.inputs.foldl (moveVarStep dev ov)
          ({ st.1 with ops := removeFirstOp st.1.ops op.id },
           modifyIdx (fun d => { d with ops := d.ops ++ [op] }) dev st.2))).1.ops) ∧
    List.Sublist (varsIds (op.outputs.foldl (moveVarStep dev ov)
        (op.inputs.foldl (moveVarStep dev ov)
          ({ st.1 with ops := removeFirstOp st.1.ops op.id },
           modifyIdx (fun d => { d with ops := d.ops ++ [op] }) dev st.2))).1.vars)
      (varsIds st.1.vars) ∧
    (∀ i, i ∈ op.inputs ++ op.outputs →
      i ∉ varsIds (op.outputs.foldl (moveVarStep dev ov)
        (op.inputs.foldl (moveVarStep dev ov)
          ({ st.1 with ops := removeFirstOp st.1.ops op.id },
           modifyIdx (fun d => { d with ops := d.ops ++ [op] }) dev st.2))).1.vars) ∧
    (∀ i, i ∈ varsIds st.1.vars → i ∉ op.inputs ++ op.outputs →
      i ∈ varsIds (op.outputs.foldl (moveVarStep dev ov)
        (op.inputs.foldl (moveVarStep dev ov)
          ({ st.1 with ops := removeFirstOp st.1.ops op.id },
           modifyIdx (fun d => { d with ops := d.ops ++ [op] }) dev st.2))).1.vars) ∧
    (∀ d x, d ≠ dev →
      ((op.outputs.foldl (moveVarStep dev ov)
        (op.inputs.foldl (moveVarStep dev ov)
          ({ st.1 with ops := removeFirstOp st.1.ops op.id },
           modifyIdx (fun d => { d with ops := d.ops ++ [op] }) dev st.2))).2).getD d x
        = st.2.getD d x) := by
  set st0 : Graph × List Graph :=
    ({ st.1 with ops := removeFirstOp st.1.ops op.id },
     modifyIdx (fun d => { d with ops := d.ops ++ [op] }) dev st.2) with hst0
  have hndN : (nodeIds st.1).Nodup := List.Nodup.of_append_left hnd
  have hndO : (opsIds st.1.ops).Nodup := List.Nodup.of_append_left hndN
  have hndV : (varsIds st.1.vars).Nodup := List.Nodup.of_append_right hndN
  have hdev0 : dev < st0.2.length := by
    show dev < (modifyIdx _ dev st.2).length
    rw [modifyIdx_length]
    exact hdev
  have hndV0 : (varsIds st0.1.vars).Nodup := hndV
  obtain ⟨a1, a2, a3, a4, a5, a6, asub, arem, akeep, aperm, agetd⟩ :=
    moveVars_fold dev ov op.inputs st0 hdev0 hndV0
  have hdev1 : dev < (op.inputs.foldl (moveVarStep dev ov) st0).2.length := by
    rw [foldl_moveVarStep_gs_length]
    exact hdev0
  have hndV1 : (varsIds (op.inputs.foldl (moveVarStep dev ov) st0).1.vars).Nodup :=
    hndV0.sublist asub
  obtain ⟨b1, b2, b3, b4, b5, b6, bsub, brem, bkeep, bperm, bgetd⟩ :=
    moveVars_fold dev ov op.outputs (op.inputs.foldl (moveVarStep dev ov) st0)
      hdev1 hndV1
  have hperm0 : List.Perm (stateNodeIds st0) (stateNodeIds st) :=
    stateNodeIds_opmove_perm st op dev hdev hopmem
  have hops01 : (op.outputs.foldl (moveVarStep dev ov)
      (op.inputs.foldl (moveVarStep dev ov) st0)).1.ops
      = removeFirstOp st.1.ops op.id := by
    rw [b1, a1]
  refine ⟨bperm.trans (aperm.trans hperm0), b2.trans a2, b3.trans a3,
    b4.trans a4, b5.trans a5, b6.trans a6, ?_, ?_, ?_, ?_, ?_, ?_, ?_⟩
  · rw [hops01]
    exact not_mem_opsIds_removeFirstOp hndO
  · rw [hops01]
    exact opsIds_removeFirstOp_sublist _ _
  · intro i hne hmem
    rw [hops01]
    exact mem_opsIds_removeFirstOp hne hmem
  · exact bsub.trans asub
  · intro i hi
    rcases List.mem_append.mp hi with hi' | hi'
    · intro hmem
      exact arem i hi' (bsub.mem hmem)
    · exact brem i hi'
  · intro i hmem hni
    have hni1 : i ∉ op.inputs := fun h => hni (List.mem_append.mpr (Or.inl h))
    have hni2 : i ∉ op.outputs := fun h => hni (List.mem_append.mpr (Or.inr h))
    exact bkeep i hni2 (akeep i hni1 hmem)
  · intro d x hdne
    rw [bgetd d x hdne, agetd d x hdne]
    show (modifyIdx _ dev st.2).getD d x = st.2.getD d x
    exact getD_modifyIdx_ne _ _ _ hdne

/-- `transferCore_spec` re-expressed through `transferOp`. -/
theorem transferOp_spec (m : List (Nat × Nat)) (st : Graph × List Graph)
    (op : OpHandle)
    (hdev : (lookupDev m op.id).getD 0 < st.2.length)
    (hnd : (stateNodeIds st).Nodup)
    (hopmem : op.id ∈ opsIds st.1.ops) :
    List.Perm (stateNodeIds (transferOp m st op)) (stateNodeIds st) ∧
    (transferOp m st op).1.graphVars = st.1.graphVars ∧
    (transferOp m st op).1.graphDepVars = st.1.graphDepVars ∧
    (transferOp m st op).1.programDescs = st.1.programDescs ∧
    (transferOp m st op).1.fusedVars = st.1.fusedVars ∧
    (transferOp m st op).1.originProgram = st.1.originProgram ∧
    op.id ∉ opsIds (transferOp m st op).1.ops ∧
    List.Sublist (opsIds (transferOp m st op).1.ops) (opsIds st.1.ops) ∧
    (∀ i, i ≠ op.id → i ∈ opsIds st.1.ops →
      i ∈ opsIds (transferOp m st op).1.ops) ∧
    List.Sublist (varsIds (transferOp m st op).1.vars) (varsIds st.1.vars) ∧
    (∀ i, i ∈ op.inputs ++ op.outputs →
      i ∉ varsIds (transferOp m st op).1.vars) ∧
    (∀ i, i ∈ varsIds st.1.vars → i ∉ op.inputs ++ op.outputs →
      i ∈ varsIds (transferOp m st op).1.vars) ∧
    (∀ d x, d ≠ (lookupDev m op.id).getD 0 →
      ((transferOp m st op).2).getD d x = st.2.getD d x) :=
  transferCore_spec ((lookupDev m op.id).getD 0)
    ((st.1.graphVars.getD []).getD ((lookupDev m op.id).getD 0) [])
    st op hdev hnd hopmem

/-- Invariants of the whole transfer loop (fold of `transferOp` over the
list of op handles). -/
theorem transfer_fold_spec (m : List (Nat × Nat)) :
    ∀ (todo : List OpHandle) (st : Graph × List Graph),
    (stateNodeIds st).Nodup →
    (∀ op ∈ todo, (lookupDev m op.id).getD 0 < st.2.length) →
    (∀ op ∈ todo, op.id ∈ opsIds st.1.ops) →
    (opsIds todo).Nodup →
    List.Perm (stateNodeIds (todo.foldl (transferOp m) st)) (stateNodeIds st) ∧
    (todo.foldl (transferOp m) st).1.graphVars = st.1.graphVars ∧
    (todo.foldl (transferOp m) st).1.graphDepVars = st.1.graphDepVars ∧
    (todo.foldl (transferOp m) st).1.programDescs = st.1.programDescs ∧
    (todo.foldl (transferOp m) st).1.fusedVars = st.1.fusedVars ∧
    (todo.foldl (transferOp m) st).1.originProgram = st.1.originProgram ∧
    (∀ op ∈ todo, op.id ∉ opsIds (todo.foldl (transferOp m) st).1.ops) ∧
    List.Sublist (opsIds (todo.foldl (transferOp m) st).1.ops)
      (opsIds st.1.ops) ∧
    List.Sublist (varsIds (todo.foldl (transferOp m) st).1.vars)
      (varsIds st.1.vars) ∧
    (∀ op ∈ todo, ∀ i, i ∈ op.inputs ++ op.outputs →
      i ∉ varsIds (todo.foldl (transferOp m) st).1.vars) ∧
    (∀ i, i ∈ varsIds st.1.vars → (∀ op ∈ todo, i ∉ op.inputs ++ op.outputs) →
      i ∈ varsIds (todo.foldl (transferOp m) st).1.vars) ∧
    (∀ d x, (∀ op ∈ todo, (lookupDev m op.id).getD 0 ≠ d) →
      ((todo.foldl (transferOp m) st).2).getD d x = st.2.getD d x) := by
  intro todo
  induction todo with
  | nil =>
    intro st _ _ _ _
    exact ⟨List.Perm.refl _, rfl, rfl, rfl, rfl, rfl, by simp,
      List.Sublist.refl _, List.Sublist.refl _, by simp,
      fun i hi _ => hi, fun d x _ => rfl⟩
  | cons o rest ih =>
    intro st hnd hdev hmem hndt
    have hdevo : (lookupDev m o.id).getD 0 < st.2.length :=
      hdev o (List.mem_cons_self _ _)
    have hmemo : o.id ∈ opsIds st.1.ops := hmem o (List.mem_cons_self _ _)
    obtain ⟨t1, t2, t3, t4, t5, t6, t7, t8, t9, t10, t11, t12, t13⟩ :=
      transferOp_spec m st o hdevo hnd hmemo
    simp only [opsIds, List.map_cons, List.nodup_cons] at hndt
    have hnd1 : (stateNodeIds (transferOp m st o)).Nodup := hnd.perm t1.symm
    have hlen1 : (transferOp m st o).2.length = st.2.length :=
      transferOp_gs_length m st o
    have hdev1 : ∀ op ∈ rest,
        (lookupDev m op.id).getD 0 < (transferOp m st o).2.length := by
      intro op hop
      rw [hlen1]
      exact hdev op (List.mem_cons_of_mem _ hop)
    have hne_o : ∀ op ∈ rest, op.id ≠ o.id := by
      intro op hop h
      exact hndt.1 (h ▸ List.mem_map_of_mem (·.id) hop)
    have hmem1 : ∀ op ∈ rest, op.id ∈ opsIds (transferOp m st o).1.ops := by
      intro op hop
      exact t9 op.id (hne_o op hop) (hmem op (List.mem_cons_of_mem _ hop))
    obtain ⟨i1, i2, i3, i4, i5, i6, i7, i8, i9, i10, i11, i12⟩ :=
      ih (transferOp m st o) hnd1 hdev1 hmem1 hndt.2
    rw [List.foldl_cons]
    refine ⟨i1.trans t1, i2.trans t2, i3.trans t3, i4.trans t4, i5.trans t5,
      i6.trans t6, ?_, i8.trans t8, i9.trans t10, ?_, ?_, ?_⟩
    · intro op hop
      rcases List.mem_cons.mp hop with rfl | hop'
      · intro hmemf
        exact t7 (i8.mem hmemf)
      · exact i7 op hop'
    · intro op hop i hi
      rcases List.mem_cons.mp hop with rfl | hop'
      · intro hmemf
        exact t11 i hi (i9.mem hmemf)
      · exact i10 op hop' i hi
    · intro i hmemv hnotinc
      have h1 : i ∈ varsIds (transferOp m st o).1.vars :=
        t12 i hmemv (hnotinc o (List.mem_cons_self _ _))
      exact i11 i h1 (fun op hop => hnotinc op (List.mem_cons_of_mem _ hop))
    · intro d x hall
      rw [i12 d x (fun op hop => hall op (List.mem_cons_of_mem _ hop))]
      exact t13 d x (fun h => hall o (List.mem_cons_self _ _) h.symm)

theorem stateNodeIds_init (g : Graph) (pn : Nat) :
    stateNodeIds (g, List.replicate pn newEmptyGraph) = nodeIds g := by
  show nodeIds g ++ ((List.replicate pn newEmptyGraph).map nodeIds).flatten
    = nodeIds g
  have hflat : ∀ n, ((List.replicate n newEmptyGraph).map nodeIds).flatten
      = ([] : List Nat) := by
    intro n
    induction n with
    | zero => rfl
    | succ k ihh =>
      rw [List.replicate_succ, List.map_cons, List.flatten_cons, ihh]
      rfl
  rw [hflat, List.append_nil]

theorem getD_map_lt {α β : Type} (f : α → β) :
    ∀ (l : List α) {i : Nat} (d : α) (d2 : β), i < l.length →
    (l.map f).getD i d2 = f (l.getD i d) := by
  intro l
  induction l with
  | nil => intro i d d2 h; simp at h
  | cons a rest ihh =>
    intro i d d2 h
    cases i with
    | zero => simp
    | succ k =>
      simp only [List.map_cons, List.getD_cons_succ]
      exact ihh d d2 (by simpa using h)

/-- Everything the claims need about a completed transfer: the node ids of
the final source plus all destination graphs permute the original node ids;
op nodes and op-incident var nodes are no longer in the source; var nodes
incident to no op stay in the source; destination slots that no op was
assigned to still hold a fresh empty graph (up to the attribute copy). -/
theorem finishTransfer_spec (g : Graph) (m : List (Nat × Nat)) (pn : Nat)
    (hwf : wfGraph g)
    (hclass : classifyOps g.vars g.ops = some (m, pn)) :
    List.Perm (nodeIds (finishTransfer g m pn).2 ++
      (((finishTransfer g m pn).1).map nodeIds).flatten) (nodeIds g) ∧
    (∀ op ∈ g.ops, op.id ∉ nodeIds (finishTransfer g m pn).2) ∧
    (∀ op ∈ g.ops, ∀ i, i ∈ op.inputs ++ op.outputs →
      i ∉ varsIds (finishTransfer g m pn).2.vars) ∧
    (∀ i, i ∈ varsIds g.vars → (∀ op ∈ g.ops, i ∉ op.inputs ++ op.outputs) →
      i ∈ varsIds (finishTransfer g m pn).2.vars) ∧
    List.Sublist (opsIds (finishTransfer g m pn).2.ops) (opsIds g.ops) ∧
    List.Sublist (varsIds (finishTransfer g m pn).2.vars) (varsIds g.vars) ∧
    (∀ d, d < pn → (∀ op ∈ g.ops, lookupDev m op.id ≠ some d) →
      ((finishTransfer g m pn).1.getD d newEmptyGraph).ops = [] ∧
      ((finishTransfer g m pn).1.getD d newEmptyGraph).vars = [] ∧
      ((finishTransfer g m pn).1.getD d newEmptyGraph).graphVars = some [[]] ∧
      ((finishTransfer g m pn).1.getD d newEmptyGraph).graphDepVars = some []) := by
  have hndOps : (opsIds g.ops).Nodup := List.Nodup.of_append_left hwf
  have hndVars : (varsIds g.vars).Nodup := List.Nodup.of_append_right hwf
  have hdisj : (opsIds g.ops).Disjoint (varsIds g.vars) :=
    List.disjoint_of_nodup_append hwf
  have hndinit : (stateNodeIds (g, List.replicate pn newEmptyGraph)).Nodup := by
    rw [stateNodeIds_init]
    exact hwf
  have hlookup : ∀ op ∈ g.ops, ∃ d0,
      lookupDev m op.id = some d0 ∧ d0 + 1 ≤ pn := by
    intro op hop
    obtain ⟨d0, hu, hle⟩ := classify_getUnique hclass op hop
    exact ⟨d0, classify_lookup hndOps hclass op hop d0 hu, hle⟩
  have hdev : ∀ op ∈ g.ops, (lookupDev m op.id).getD 0 <
      (g, List.replicate pn newEmptyGraph).2.length := by
    intro op hop
    obtain ⟨d0, hl, hle⟩ := hlookup op hop
    rw [hl]
    show d0 < (List.replicate pn newEmptyGraph).length
    rw [List.length_replicate]
    omega
  have hmem : ∀ op ∈ g.ops,
      op.id ∈ opsIds (g, List.replicate pn newEmptyGraph).1.ops :=
    fun op hop => List.mem_map_of_mem _ hop
  obtain ⟨p1, p2, p3, p4, p5, p6, p7, p8, p9, p10, p11, p12⟩ :=
    transfer_fold_spec m g.ops (g, List.replicate pn newEmptyGraph)
      hndinit hdev hmem hndOps
  set stf := g.ops.foldl (transferOp m) (g, List.replicate pn newEmptyGraph)
    with hstf
  have hfst : (finishTransfer g m pn).1 = stf.2.map (fun d =>
      { d with programDescs := copyAttrIfExists stf.1.programDescs d.programDescs,
               fusedVars := copyAttrIfExists stf.1.fusedVars d.fusedVars }) := rfl
  have hsnd_nodes : nodeIds (finishTransfer g m pn).2 = nodeIds stf.1 := rfl
  have hsnd_vars : varsIds (finishTransfer g m pn).2.vars = varsIds stf.1.vars := rfl
  have hmapnodes : (((finishTransfer g m pn).1).map nodeIds) = stf.2.map nodeIds := by
    rw [hfst, List.map_map]
    exact List.map_congr_left (fun d _ => rfl)
  have hlen2 : stf.2.length = pn := by
    rw [hstf, foldl_transferOp_gs_length]
    exact List.length_replicate _ _
  refine ⟨?_, ?_, ?_, ?_, p8, p9, ?_⟩
  · rw [hsnd_nodes, hmapnodes]
    have : nodeIds stf.1 ++ (stf.2.map nodeIds).flatten = stateNodeIds stf := rfl
    rw [this, ← stateNodeIds_init g pn]
    exact p1
  · intro op hop
    rw [hsnd_nodes]
    have h1 : op.id ∉ opsIds stf.1.ops := p7 op hop
    have h2 : op.id ∉ varsIds stf.1.vars := by
      intro hmem2
      exact hdisj (List.mem_map_of_mem _ hop) (p9.mem hmem2)
    show op.id ∉ opsIds stf.1.ops ++ varsIds stf.1.vars
    rw [List.mem_append]
    push_neg
    exact ⟨h1, h2⟩
  · intro op hop i hi
    rw [hsnd_vars]
    exact p10 op hop i hi
  · intro i hmemv hninc
    rw [hsnd_vars]
    exact p11 i hmemv hninc
  · intro d hd hnotd
    have hall : ∀ op ∈ g.ops, (lookupDev m op.id).getD 0 ≠ d := by
      intro op hop
      obtain ⟨d0, hl, _⟩ := hlookup op hop
      rw [hl]
      intro hco
      simp only [Option.getD_some] at hco
      exact hnotd op hop (by rw [hl, hco])
    have h2 : stf.2.getD d newEmptyGraph = newEmptyGraph := by
      rw [p12 d newEmptyGraph hall]
      exact getD_replicate_lt _ _ hd
    rw [hfst, getD_map_lt _ stf.2 newEmptyGraph newEmptyGraph
      (by rw [hlen2]; exact hd), h2]
    exact ⟨rfl, rfl, rfl, rfl⟩

/-! The graphs `trySeparate` returns on `exSplit`. -/

/-- Device-0 graph produced by splitting `exSplit`. -/
def exSplitRes0 : Graph :=
  { ops := [⟨0, .compute "op_a" 0 [], [], [10]⟩],
    vars := [⟨10, "x", .var 0, some 0, []⟩],
    graphVars := some [[("x", 100)]], graphDepVars := some [],
    programDescs := none, fusedVars := none, originProgram := [[]] }

/-- Device-1 graph produced by splitting `exSplit`. -/
def exSplitRes1 : Graph :=
  { ops := [⟨1, .compute "op_b" 1 [], [], [11]⟩],
    vars := [⟨11, "y", .var 1, some 1, []⟩],
    graphVars := some [[("y", 200)]], graphDepVars := some [],
    programDescs := none, fusedVars := none, originProgram := [[]] }

/-- Final state of the source graph after splitting `exSplit`. -/
def exSplitResSrc : Graph :=
  { ops := [], vars := [], graphVars := none, graphDepVars := none,
    programDescs := none, fusedVars := none,
    originProgram := [["op_a", "op_b"]] }

/-! Claim theorems. -/

/-- Claim C4: device classification by node kind: a compute op whose type
is in the communication-operator set gets Undetermined; any other compute
op gets its recorded scope index; eager-deletion and buffer-sharing nodes
get their recorded scope index directly; every other node kind gets
Undetermined. -/
theorem C4_assign_device_by_kind :
    (∀ (i : Nat) (ins outs : List Nat) (ty : String) (s : Nat)
        (attrs : List (String × Bool)),
      (ty ∈ kMultiDeviceOps →
        GetScopeIdxFromOp ⟨i, .compute ty s attrs, ins, outs⟩ = none) ∧
      (ty ∉ kMultiDeviceOps →
        GetScopeIdxFromOp ⟨i, .compute ty s attrs, ins, outs⟩ = some s)) ∧
    (∀ (i : Nat) (ins outs : List Nat) (s : Nat),
      GetScopeIdxFromOp ⟨i, .eagerDeletion s, ins, outs⟩ = some s) ∧
    (∀ (i : Nat) (ins outs : List Nat) (s : Nat),
      GetScopeIdxFromOp ⟨i, .shareTensorBuffer s, ins, outs⟩ = some s) ∧
    (∀ (i : Nat) (ins outs : List Nat),
      GetScopeIdxFromOp ⟨i, .other, ins, outs⟩ = none) := by
  refine ⟨fun i ins outs ty s attrs => ⟨fun h => ?_, fun h => ?_⟩,
    fun i ins outs s => rfl, fun i ins outs s => rfl, fun i ins outs => rfl⟩
  · simp [GetScopeIdxFromOp, h]
  · simp [GetScopeIdxFromOp, h]

/-- Witness for C4 at concrete operator nodes. -/
theorem C4_assign_device_by_kind_witness :
    GetScopeIdxFromOp ⟨0, .compute "allreduce" 3 [], [], []⟩ = none ∧
    GetScopeIdxFromOp ⟨1, .compute "mul" 4 [], [], []⟩ = some 4 ∧
    GetScopeIdxFromOp ⟨2, .eagerDeletion 5, [], []⟩ = some 5 :=
  ⟨(C4_assign_device_by_kind.1 0 [] [] "allreduce" 3 []).1
     (List.mem_cons_of_mem _ (List.mem_cons_of_mem _ (List.mem_cons_self _ _))),
   (C4_assign_device_by_kind.1 1 [] [] "mul" 4 []).2 (by decide),
   C4_assign_device_by_kind.2.1 2 [] [] 5⟩

theorem hasDropLastImpl_iff (g : Graph) (b : Bool) :
    HasDropLastReadOpImpl g b = true ↔ ∃ op ∈ g.ops, ∃ s attrs,
      op.kind = OpKind.compute "read" s attrs ∧
      attrs.lookup "drop_last" = some b := by
  unfold HasDropLastReadOpImpl
  rw [List.any_eq_true]
  constructor
  · rintro ⟨op, hop, hbody⟩
    cases hk : op.kind with
    | compute ty s attrs =>
      rw [hk] at hbody
      simp only [Bool.and_eq_true, beq_iff_eq] at hbody
      exact ⟨op, hop, s, attrs, by rw [hk, hbody.1], hbody.2⟩
    | eagerDeletion s => rw [hk] at hbody; simp at hbody
    | shareTensorBuffer s => rw [hk] at hbody; simp at hbody
    | other => rw [hk] at hbody; simp at hbody
  · rintro ⟨op, hop, s, attrs, hk, hlk⟩
    refine ⟨op, hop, ?_⟩
    rw [hk]
    simp [hlk]

/-- Claim C8: `HasDropLastReadOp` is true iff the graph has a compute op of
type `read` whose boolean attribute `drop_last` is true; `HasKeepLastReadOp`
likewise with false; with no `read` op both are false.  Both are pure
functions of the graph. -/
theorem C8_marker_scan (g : Graph) :
    (HasDropLastReadOp g = true ↔ ∃ op ∈ g.ops, ∃ s attrs,
      op.kind = OpKind.compute "read" s attrs ∧
      attrs.lookup "drop_last" = some true) ∧
    (HasKeepLastReadOp g = true ↔ ∃ op ∈ g.ops, ∃ s attrs,
      op.kind = OpKind.compute "read" s attrs ∧
      attrs.lookup "drop_last" = some false) ∧
    ((¬ ∃ op ∈ g.ops, ∃ s attrs, op.kind = OpKind.compute "read" s attrs) →
      HasDropLastReadOp g = false ∧ HasKeepLastReadOp g = false) := by
  refine ⟨hasDropLastImpl_iff g true, hasDropLastImpl_iff g false, fun hno => ⟨?_, ?_⟩⟩
  · rw [Bool.eq_false_iff]
    intro htrue
    obtain ⟨op, hop, s, attrs, hk, _⟩ := (hasDropLastImpl_iff g true).mp htrue
    exact hno ⟨op, hop, s, attrs, hk⟩
  · rw [Bool.eq_false_iff]
    intro htrue
    obtain ⟨op, hop, s, attrs, hk, _⟩ := (hasDropLastImpl_iff g false).mp htrue
    exact hno ⟨op, hop, s, attrs, hk⟩

/-- Witness for C8 at the concrete graphs `exRead` and `exNoOps`. -/
theorem C8_marker_scan_witness :
    HasDropLastReadOp exRead = true ∧ HasKeepLastReadOp exRead = false ∧
    HasDropLastReadOp exNoOps = false ∧ HasKeepLastReadOp exNoOps = false := by
  refine ⟨(C8_marker_scan exRead).1.mpr ?_, rfl, (C8_marker_scan exNoOps).2.2 ?_⟩
  · exact ⟨⟨0, .compute "read" 0 [("drop_last", true)], [], []⟩,
      List.mem_singleton.mpr rfl, 0, [("drop_last", true)], rfl, rfl⟩
  · rintro ⟨op, hop, -⟩
    simp [exNoOps] at hop

/-- Claim C6: a communication operator anywhere in a non-top-level block of
the originating program (the scan starts at block 1) makes `trySeparate`
return the empty sequence with the graph unchanged. -/
theorem C6_global_veto (g : Graph)
    (h : ∃ block ∈ g.originProgram.drop 1, ∃ ty ∈ block,
      ty ∈ kMultiDeviceOps) :
    trySeparate g = some ([], g) := by
  apply trySeparate_veto
  unfold ContainMultiDeviceOp
  rw [List.any_eq_true]
  obtain ⟨b, hb, ty, hty, hmem⟩ := h
  exact ⟨b, hb, List.any_eq_true.mpr ⟨ty, hty, decide_eq_true hmem⟩⟩

/-- Witness for C6 at the concrete graph `exVeto`. -/
theorem C6_global_veto_witness : trySeparate exVeto = some ([], exVeto) :=
  C6_global_veto exVeto
    ⟨["allreduce"], List.mem_singleton.mpr rfl, "allreduce",
     List.mem_singleton.mpr rfl,
     List.mem_cons_of_mem _ (List.mem_cons_of_mem _ (List.mem_cons_self _ _))⟩

/-- Claim C7: a graph with no operator nodes, or one in which every
operator resolves to device index 0, yields the empty sequence. -/
theorem C7_degenerate (g : Graph)
    (h : g.ops = [] ∨ ∀ op ∈ g.ops, GetUniqueDeviceIdOfOp g.vars op = some 0) :
    trySeparate g = some ([], g) := by
  rcases h with h | h
  · exact trySeparate_noOps h
  · by_cases hveto : ContainMultiDeviceOp g.originProgram 1
    · exact trySeparate_veto hveto
    · by_cases hops : g.ops = []
      · exact trySeparate_noOps hops
      · cases hc : classifyOps g.vars g.ops with
        | none => exact trySeparate_classifyNone hc
        | some p =>
          obtain ⟨m, pn⟩ := p
          have hpn : pn = 1 :=
            le_antisymm (classify_all_zero h hc) (classify_pos hops hc)
          have hemp : g.ops.isEmpty = false := by
            cases hgo : g.ops with
            | nil => exact absurd hgo hops
            | cons a as => rfl
          by_cases hcross : crossDeviceOk g m
          · simp [trySeparate, hveto, hemp, hc, hcross, hpn]
          · simp only [Bool.not_eq_true] at hcross
            simp [trySeparate, hveto, hemp, hc, hcross]

/-- Witness for C7 at the concrete graphs `exNoOps` and `exAllZero`. -/
theorem C7_degenerate_witness :
    trySeparate exNoOps = some ([], exNoOps) ∧
    trySeparate exAllZero = some ([], exAllZero) :=
  ⟨C7_degenerate exNoOps (Or.inl rfl),
   C7_degenerate exAllZero (Or.inr (by
     intro op hop
     rcases List.mem_cons.mp hop with rfl | hop
     · rfl
     rcases List.mem_cons.mp hop with rfl | hop
     · rfl
     · exact absurd hop (List.not_mem_nil _)))⟩

/-- Claim C5: an operator with a determined scope index whose directly
connected non-dummy variable records a different device index is downgraded
to Undetermined, and its presence makes the whole `trySeparate` pass return
the empty sequence (with the graph unchanged). -/
theorem C5_uniqueness_refinement (g : Graph) (op : OpHandle) (d : Nat)
    (hop : op ∈ g.ops)
    (hscope : GetScopeIdxFromOp op = some d)
    (v : VarHandle)
    (hv : v ∈ (op.inputs ++ op.outputs).filterMap (findVar g.vars))
    (s : Nat) (hks : v.kind = VarKind.var s) (hne : s ≠ d) :
    GetUniqueDeviceIdOfOp g.vars op = none ∧
    trySeparate g = some ([], g) := by
  have hund : GetUniqueDeviceIdOfOp g.vars op = none := by
    simp only [GetUniqueDeviceIdOfOp, hscope]
    split
    · rename_i hall
      exfalso
      have h5 := List.all_eq_true.mp hall v hv
      rw [hks] at h5
      simp only [beq_iff_eq] at h5
      exact hne h5.symm
    · rfl
  exact ⟨hund,
    trySeparate_classifyNone (classify_none_of_undetermined hop hund)⟩

/-- Witness for C5: the operator on device 2 with an input variable on
device 5 from `exMismatch`. -/
theorem C5_uniqueness_refinement_witness :
    GetUniqueDeviceIdOfOp exMismatch.vars
      ⟨0, .compute "op_a" 2 [], [5], []⟩ = none ∧
    trySeparate exMismatch = some ([], exMismatch) :=
  C5_uniqueness_refinement exMismatch ⟨0, .compute "op_a" 2 [], [5], []⟩ 2
    (List.mem_singleton.mpr rfl) rfl ⟨5, "w", .var 5, none, [0]⟩
    (List.mem_singleton.mpr rfl) 5 rfl (by omega)

/-- Claim C9: `trySeparate` always returns (the fatal
`PADDLE_ENFORCE_GE(place_num, 1)` branch, modelled as the only `none`
result, is unreachable), because with a non-empty op list every successful
classification yields a device count of at least 1. -/
theorem C9_enforce_unreachable (g : Graph) :
    (trySeparate g).isSome = true ∧
    (∀ m pn, g.ops ≠ [] → classifyOps g.vars g.ops = some (m, pn) →
      1 ≤ pn) := by
  constructor
  · by_cases hveto : ContainMultiDeviceOp g.originProgram 1
    · rw [trySeparate_veto hveto]; rfl
    · by_cases hops : g.ops = []
      · rw [trySeparate_noOps hops]; rfl
      · cases hc : classifyOps g.vars g.ops with
        | none => rw [trySeparate_classifyNone hc]; rfl
        | some p =>
          obtain ⟨m, pn⟩ := p
          have hpos := classify_pos hops hc
          have hemp : g.ops.isEmpty = false := by
            cases hgo : g.ops with
            | nil => exact absurd hgo hops
            | cons a as => rfl
          by_cases hcross : crossDeviceOk g m
          · have hlt : ¬ pn < 1 := by omega
            by_cases hone : pn = 1
            · simp [trySeparate, hveto, hemp, hc, hcross, hlt, hone]
            · simp [trySeparate, hveto, hemp, hc, hcross, hlt, hone]
          · simp only [Bool.not_eq_true] at hcross
            simp [trySeparate, hveto, hemp, hc, hcross]
  · intro m pn hne hc
    exact classify_pos hne hc

/-- Witness for C9 at the concrete graph `exSplit`. -/
theorem C9_enforce_unreachable_witness :
    (trySeparate exSplit).isSome = true ∧ 1 ≤ 2 :=
  ⟨(C9_enforce_unreachable exSplit).1,
   (C9_enforce_unreachable exSplit).2 [(0, 0), (1, 1)] 2
     (List.cons_ne_nil _ _) rfl⟩

/-- Claim C2: whenever `trySeparate` returns the empty sequence, the input
graph is left completely unchanged (same nodes, same attribute
side-tables): the returned final graph state is the input graph itself. -/
theorem C2_abort_no_mutation (g : Graph) (l : List Graph) (g' : Graph)
    (h : trySeparate g = some (l, g')) (hl : l = []) : g' = g := by
  subst hl
  by_cases hveto : ContainMultiDeviceOp g.originProgram 1
  · rw [trySeparate_veto hveto] at h
    simp only [Option.some.injEq, Prod.mk.injEq] at h
    exact h.2.symm
  · by_cases hops : g.ops = []
    · rw [trySeparate_noOps hops] at h
      simp only [Option.some.injEq, Prod.mk.injEq] at h
      exact h.2.symm
    · cases hc : classifyOps g.vars g.ops with
      | none =>
        rw [trySeparate_classifyNone hc] at h
        simp only [Option.some.injEq, Prod.mk.injEq] at h
        exact h.2.symm
      | some p =>
        obtain ⟨m, pn⟩ := p
        have hemp : g.ops.isEmpty = false := by
          cases hgo : g.ops with
          | nil => exact absurd hgo hops
          | cons a as => rfl
        by_cases hcross : crossDeviceOk g m
        · have h2 : (if pn < 1 then none
              else if pn = 1 then some (([] : List Graph), g)
              else some (finishTransfer g m pn)) = some (([] : List Graph), g') := by
            simp only [trySeparate, hveto, hemp, hc, hcross, Bool.false_eq_true,
              if_false, if_true, ite_true, ite_false] at h
            exact h
          by_cases hlt : pn < 1
          · rw [if_pos hlt] at h2
            exact absurd h2 (by simp)
          · by_cases hone : pn = 1
            · rw [if_neg hlt, if_pos hone] at h2
              simp only [Option.some.injEq, Prod.mk.injEq] at h2
              exact h2.2.symm
            · exfalso
              rw [if_neg hlt, if_neg hone] at h2
              simp only [Option.some.injEq] at h2
              have hlen := finishTransfer_length g m pn
              rw [h2] at hlen
              simp at hlen
              omega
        · simp only [Bool.not_eq_true] at hcross
          simp only [trySeparate, hveto, hemp, hc, hcross, Bool.false_eq_true,
            if_false, ite_false, Option.some.injEq, Prod.mk.injEq] at h
          exact h.2.symm

/-- Witness for C2 at the concrete aborting graph `exMismatch`. -/
theorem C2_abort_no_mutation_witness : exMismatch = exMismatch :=
  C2_abort_no_mutation exMismatch [] exMismatch rfl rfl

/-- Claim C1: `trySeparate` returns a non-empty result only if the
cross-device dependency check passes: the classification succeeded and, for
every op with assigned device index, every input's generating op and every
output's pending op known to the classification map carries the same device
index (so any mismatch forces the empty sequence). -/
theorem C1_cross_device_gate (g : Graph) (l : List Graph) (g' : Graph)
    (h : trySeparate g = some (l, g')) (hne : l ≠ []) :
    ∃ m pn, classifyOps g.vars g.ops = some (m, pn) ∧ CrossDeviceProp g m := by
  obtain ⟨hops, m, pn, hc, hcross, hpn, hfin⟩ := trySeparate_success h hne
  exact ⟨m, pn, hc, crossDeviceOk_prop hcross⟩

/-- Witness for C1 at the concrete splitting graph `exSplit`. -/
theorem C1_cross_device_gate_witness :
    ∃ m pn, classifyOps exSplit.vars exSplit.ops = some (m, pn) ∧
      CrossDeviceProp exSplit m :=
  C1_cross_device_gate exSplit [exSplitRes0, exSplitRes1] exSplitResSrc
    rfl (List.cons_ne_nil _ _)

/-- Claim C10: on every successful call (on a graph with pairwise distinct
node ids), the returned sequence's length is one plus the maximum assigned
device index, and is at least 2; a position to which no op was assigned
holds a graph with no nodes and only the two freshly created empty
side-tables. -/
theorem C10_result_shape (g : Graph) (l : List Graph) (g' : Graph)
    (hwf : wfGraph g)
    (h : trySeparate g = some (l, g')) (hne : l ≠ []) :
    ∃ m pn, classifyOps g.vars g.ops = some (m, pn) ∧
      l.length = pn ∧ 2 ≤ pn ∧
      (∀ op ∈ g.ops, ∀ d, lookupDev m op.id = some d → d + 1 ≤ pn) ∧
      (∃ op ∈ g.ops, lookupDev m op.id = some (pn - 1)) ∧
      (∀ d, d < pn → (∀ op ∈ g.ops, lookupDev m op.id ≠ some d) →
        (l.getD d newEmptyGraph).ops = [] ∧
        (l.getD d newEmptyGraph).vars = [] ∧
        (l.getD d newEmptyGraph).graphVars = some [[]] ∧
        (l.getD d newEmptyGraph).graphDepVars = some []) := by
  obtain ⟨hops, m, pn, hc, hcross, hpn2, hfin⟩ := trySeparate_success h hne
  have hndOps : (opsIds g.ops).Nodup := List.Nodup.of_append_left hwf
  have hl1 : (finishTransfer g m pn).1 = l := by rw [hfin]
  refine ⟨m, pn, hc, by rw [← hl1, finishTransfer_length], hpn2, ?_, ?_, ?_⟩
  · intro op hop d hd
    obtain ⟨d0, hu, hle⟩ := classify_getUnique hc op hop
    have hlk := classify_lookup hndOps hc op hop d0 hu
    rw [hd] at hlk
    injection hlk with hdd
    omega
  · obtain ⟨op, hop, d, hu, hd1⟩ := classify_attained hops hc
    have hlk := classify_lookup hndOps hc op hop d hu
    refine ⟨op, hop, ?_⟩
    rw [hlk]
    congr 1
    omega
  · intro d hd hnotd
    obtain ⟨q1, q2, q3, q4, qs1, qs2, q5⟩ := finishTransfer_spec g m pn hwf hc
    have hq := q5 d hd hnotd
    rw [hl1] at hq
    exact hq

/-- Witness for C10 at the concrete splitting graph `exSplit`. -/
theorem C10_result_shape_witness :
    ∃ m pn, classifyOps exSplit.vars exSplit.ops = some (m, pn) ∧
      ([exSplitRes0, exSplitRes1] : List Graph).length = pn ∧ 2 ≤ pn ∧
      (∀ op ∈ exSplit.ops, ∀ d, lookupDev m op.id = some d → d + 1 ≤ pn) ∧
      (∃ op ∈ exSplit.ops, lookupDev m op.id = some (pn - 1)) ∧
      (∀ d, d < pn → (∀ op ∈ exSplit.ops, lookupDev m op.id ≠ some d) →
        (([exSplitRes0, exSplitRes1] : List Graph).getD d newEmptyGraph).ops = [] ∧
        (([exSplitRes0, exSplitRes1] : List Graph).getD d newEmptyGraph).vars = [] ∧
        (([exSplitRes0, exSplitRes1] : List Graph).getD d newEmptyGraph).graphVars = some [[]] ∧
        (([exSplitRes0, exSplitRes1] : List Graph).getD d newEmptyGraph).graphDepVars = some []) :=
  C10_result_shape exSplit [exSplitRes0, exSplitRes1] exSplitResSrc
    (by decide) rfl (List.cons_ne_nil _ _)

/-- Counterexample to claim C3 as stated: on `exSplitIso` the split
succeeds, node 9 belongs to the original graph's node set, yet it appears
in no returned graph (it stays behind in the source graph), so the union of
the returned graphs' nodes is not the original node set. -/
theorem C3_counterexample :
    (trySeparate exSplitIso).isSome = true ∧
    ((trySeparate exSplitIso).getD ([], exSplitIso)).1 ≠ [] ∧
    9 ∈ nodeIds exSplitIso ∧
    (∀ gi ∈ ((trySeparate exSplitIso).getD ([], exSplitIso)).1,
      9 ∉ nodeIds gi) := by
  have heq : trySeparate exSplitIso
      = some ([exSplitRes0, exSplitRes1], exSplitIsoSrc) := rfl
  rw [heq]
  refine ⟨rfl, List.cons_ne_nil _ _, by decide, ?_⟩
  intro gi hgi
  rcases List.mem_cons.mp hgi with rfl | hgi
  · decide
  rcases List.mem_cons.mp hgi with rfl | hgi
  · decide
  · exact absurd hgi (List.not_mem_nil _)

/-- Claim C3 (amended): on every successful call on a graph with pairwise
distinct node ids, no node id appears in two returned graphs, every
returned node comes from the original node set and has left the residual
source graph, every operator node lands in some returned graph, and the
union of the returned graphs' nodes is the whole original node set provided
every variable node is an input or output of at least one operator node (a
variable incident to no operator stays in the source graph instead). -/
theorem C3_partition_amended (g : Graph) (l : List Graph) (g' : Graph)
    (hwf : wfGraph g)
    (h : trySeparate g = some (l, g')) (hne : l ≠ []) :
    (l.map nodeIds).Pairwise List.Disjoint ∧
    (∀ gi ∈ l, ∀ i ∈ nodeIds gi, i ∈ nodeIds g) ∧
    (∀ gi ∈ l, ∀ i ∈ nodeIds gi, i ∉ nodeIds g') ∧
    (∀ i ∈ nodeIds g, i ∈ nodeIds g' ∨ ∃ gi ∈ l, i ∈ nodeIds gi) ∧
    (∀ op ∈ g.ops, ∃ gi ∈ l, op.id ∈ nodeIds gi) ∧
    (allVarsIncident g = true → ∀ i ∈ nodeIds g, ∃ gi ∈ l, i ∈ nodeIds gi) := by
  obtain ⟨hops, m, pn, hc, hcross, hpn2, hfin⟩ := trySeparate_success h hne
  obtain ⟨q1, q2, q3, q4, qs1, qs2, q5⟩ := finishTransfer_spec g m pn hwf hc
  have hl1 : (finishTransfer g m pn).1 = l := by rw [hfin]
  have hg1 : (finishTransfer g m pn).2 = g' := by rw [hfin]
  rw [hl1] at q1
  rw [hg1] at q1 q2 q3 q4 qs1 qs2
  have hnd2 : (nodeIds g' ++ (l.map nodeIds).flatten).Nodup := hwf.perm q1.symm
  have hdisj : (nodeIds g').Disjoint ((l.map nodeIds).flatten) :=
    List.disjoint_of_nodup_append hnd2
  have hndflat : ((l.map nodeIds).flatten).Nodup := hnd2.of_append_right
  have hdisjOV : (opsIds g.ops).Disjoint (varsIds g.vars) :=
    List.disjoint_of_nodup_append hwf
  have hcons : ∀ i ∈ nodeIds g, i ∈ nodeIds g' ∨ ∃ gi ∈ l, i ∈ nodeIds gi := by
    intro i hig
    have hi2 : i ∈ nodeIds g' ++ (l.map nodeIds).flatten := q1.mem_iff.mpr hig
    rcases List.mem_append.mp hi2 with hi3 | hi3
    · exact Or.inl hi3
    · obtain ⟨li, hli, hi4⟩ := List.mem_flatten.mp hi3
      obtain ⟨gi, hgi, rfl⟩ := List.mem_map.mp hli
      exact Or.inr ⟨gi, hgi, hi4⟩
  have hopsin : ∀ op ∈ g.ops, ∃ gi ∈ l, op.id ∈ nodeIds gi := by
    intro op hop
    have hig : op.id ∈ nodeIds g :=
      List.mem_append.mpr (Or.inl (List.mem_map_of_mem _ hop))
    rcases hcons op.id hig with h1 | h1
    · exact absurd h1 (q2 op hop)
    · exact h1
  refine ⟨(List.nodup_flatten.mp hndflat).2, ?_, ?_, hcons, hopsin, ?_⟩
  · intro gi hgi i hi
    have hflatm : i ∈ (l.map nodeIds).flatten :=
      List.mem_flatten.mpr ⟨nodeIds gi, List.mem_map_of_mem _ hgi, hi⟩
    exact q1.mem_iff.mp (List.mem_append.mpr (Or.inr hflatm))
  · intro gi hgi i hi
    have hflatm : i ∈ (l.map nodeIds).flatten :=
      List.mem_flatten.mpr ⟨nodeIds gi, List.mem_map_of_mem _ hgi, hi⟩
    intro hig'
    exact hdisj hig' hflatm
  · intro hinc i hig
    rcases List.mem_append.mp hig with hio | hiv
    · obtain ⟨op, hop, rfl⟩ := List.mem_map.mp hio
      exact hopsin op hop
    · obtain ⟨v, hv, rfl⟩ := List.mem_map.mp hiv
      have hvinc := List.all_eq_true.mp hinc v hv
      obtain ⟨op, hop, hb⟩ := List.any_eq_true.mp hvinc
      simp only [Bool.or_eq_true, decide_eq_true_eq] at hb
      have hvio : v.id ∈ op.inputs ++ op.outputs := List.mem_append.mpr hb
      have hnv : v.id ∉ varsIds g'.vars := q3 op hop v.id hvio
      have hno : v.id ∉ opsIds g'.ops := by
        intro hmem
        exact hdisjOV (qs1.mem hmem) (List.mem_map_of_mem _ hv)
      have hng' : v.id ∉ nodeIds g' := by
        intro hmem
        rcases List.mem_append.mp hmem with h1 | h1
        · exact hno h1
        · exact hnv h1
      rcases hcons v.id hig with h1 | h1
      · exact absurd h1 hng'
      · exact h1

/-- Witness for the amended C3 at the concrete splitting graph `exSplit`. -/
theorem C3_partition_amended_witness :
    (([exSplitRes0, exSplitRes1].map nodeIds).Pairwise List.Disjoint) ∧
    (∀ gi ∈ [exSplitRes0, exSplitRes1], ∀ i ∈ nodeIds gi,
      i ∈ nodeIds exSplit) ∧
    (∀ gi ∈ [exSplitRes0, exSplitRes1], ∀ i ∈ nodeIds gi,
      i ∉ nodeIds exSplitResSrc) ∧
    (∀ i ∈ nodeIds exSplit, i ∈ nodeIds exSplitResSrc ∨
      ∃ gi ∈ [exSplitRes0, exSplitRes1], i ∈ nodeIds gi) ∧
    (∀ op ∈ exSplit.ops, ∃ gi ∈ [exSplitRes0, exSplitRes1],
      op.id ∈ nodeIds gi) ∧
    (allVarsIncident exSplit = true → ∀ i ∈ nodeIds exSplit,
      ∃ gi ∈ [exSplitRes0, exSplitRes1], i ∈ nodeIds gi) :=
  C3_partition_amended exSplit [exSplitRes0, exSplitRes1] exSplitResSrc
    (by decide) rfl (List.cons_ne_nil _ _)

end MultiDevicesHelper
